import Mathlib

/-!
# FAT16 reader (`file_reader.c`): shallow embedding and verified properties

Conventions of the embedding.

* A byte is a `Nat` below 256; a buffer, a sector, a disk image and a C string
  (without its terminating NUL) are `List Nat`.
* Machine integers are `Nat`/`Int` with explicit wrap-around: `int` and
  `int32_t` are 32 bits, `size_t` and `long` are 64 bits (LP64), conversions to
  a narrower or signed type wrap modulo two to the width.
* `errno` is modelled by the value a call stores in it (`none`: left untouched).
* Pointers handed to the API are non-null and `malloc`/`calloc`/`strdup`
  succeed (also for a zero size), so the `EFAULT` and `ENOMEM` paths are not
  modelled.  `calloc` memory is zero filled.
* A call whose C execution runs into undefined behaviour or does not terminate
  has result `Result.undefined`.
-/

namespace FAT16

/-! ## Machine integers -/

/-- Conversion to `uint32_t`. -/
def to_uint32 (x : Int) : Nat := (x % 4294967296).toNat

/-- Conversion to `int32_t` (and `int`). -/
def to_int32 (x : Int) : Int := (2147483648 + x) % 4294967296 - 2147483648

/-- Conversion to `uint16_t`. -/
def to_uint16 (x : Int) : Nat := (x % 65536).toNat

/-- Conversion to `size_t` (64 bits). -/
def to_size_t (x : Int) : Nat := (x % 18446744073709551616).toNat

/-- Values of `errno` set by the reader. -/
inductive Errno
  | EFAULT | EIO | ERANGE | EINVAL | ENOMEM | EISDIR | ENOENT | ENXIO | ENOTDIR
  deriving DecidableEq, Repr

/-- Outcome of an `open` call: a handle, `NULL` together with the `errno` stored
during the call (`none`: `errno` was not written), or an execution that is
undefined in C (out-of-bounds access, use after free) or never returns. -/
inductive Result (α : Type)
  | ok (v : α)
  | fail (e : Option Errno)
  | undefined
  deriving DecidableEq, Repr

/-! ## Bytes and buffers -/

/-- The `uint8_t` at offset `off` of a buffer. -/
def byte_at (b : List Nat) (off : Nat) : Nat := b.getD off 0 % 256

/-- Little-endian `uint16_t` stored at byte offset `off`. -/
def le16 (b : List Nat) (off : Nat) : Nat := byte_at b off + 256 * byte_at b (off + 1)

/-- Little-endian `uint32_t` stored at byte offset `off`. -/
def le32 (b : List Nat) (off : Nat) : Nat :=
  byte_at b off + 256 * byte_at b (off + 1) + 65536 * byte_at b (off + 2)
    + 16777216 * byte_at b (off + 3)

/-- `memcpy(dst + off, src, src.length)` inside the buffer `dst`. -/
def memcpy_at (dst : List Nat) (off : Nat) (src : List Nat) : List Nat :=
  dst.take off ++ src ++ dst.drop (off + src.length)

/-- `calloc(1, n)`: `n` zero bytes. -/
def zeros (n : Nat) : List Nat := List.replicate n 0

/-- `isalpha` in the "C" locale; a `char` above 127 is negative and not a letter. -/
def isalpha (c : Nat) : Bool := (65 ≤ c && c ≤ 90) || (97 ≤ c && c ≤ 122)

/-- The C string held in a buffer: the bytes before the first NUL. -/
def cstr (b : List Nat) : List Nat := b.takeWhile (fun c => c != 0)

/-! ## Block device: `disk_read` -/

/-- Result of `disk_read`: the returned `int`, the `errno` stored (if any) and
the caller's buffer afterwards. -/
structure disk_result where
  ret : Int
  errno : Option Errno
  buffer : List Nat
  deriving DecidableEq, Repr

/-- `disk_read(pdisk, first_sector, buffer, sectors_to_read)` on an image whose
bytes are `pdisk`.  `ftell` is stored in an `int32_t`; the sum and the product
are `int` operations; a `fseek` to a negative offset fails and leaves the
position at the end of the file, where the preceding `fseek(.., SEEK_END)` put
it; `fread` stores what it could read and returns the number of whole sectors. -/
def disk_read (pdisk : List Nat) (first_sector : Int) (buffer : List Nat)
    (sectors_to_read : Int) : disk_result :=
  let file_size := to_int32 pdisk.length
  if file_size < 0 then { ret := -1, errno := some Errno.EIO, buffer := buffer }
  else
    let total_sectors := file_size / 512
    if to_int32 (first_sector + sectors_to_read) > total_sectors then
      { ret := -1, errno := some Errno.ERANGE, buffer := buffer }
    else
      let offset := to_int32 (first_sector * 512)
      let pos := if offset < 0 then pdisk.length else offset.toNat
      let got := (pdisk.drop pos).take (512 * to_size_t sectors_to_read)
      let buffer1 := memcpy_at buffer 0 got
      if to_int32 (got.length / 512) ≠ sectors_to_read then
        { ret := -1, errno := some Errno.EIO, buffer := buffer1 }
      else { ret := sectors_to_read, errno := none, buffer := buffer1 }

/-! ## Volume: `super_t`, `volume_t`, `fat_open` -/

/-- The fields of the packed `struct super_t` that the reader uses. -/
structure super_t where
  bytes_per_sector : Nat
  sectors_per_cluster : Nat
  reserved_sectors : Nat
  fat_count : Nat
  root_dir_capacity : Nat
  logical_sectors16 : Nat
  sectors_per_fat : Nat
  logical_sectors32 : Nat
  deriving DecidableEq, Repr

/-- The view of a boot sector as a packed `struct super_t`: `jump_code[3]`,
`oem_name[8]`, then `bytes_per_sector` at offset 11, `sectors_per_cluster` at 13,
`reserved_sectors` at 14, `fat_count` at 16, `root_dir_capacity` at 17,
`logical_sectors16` at 19, `media_type` at 21, `sectors_per_fat` at 22, two CHS
fields, `hidden_sectors` at 28 and `logical_sectors32` at 32. -/
def super_of_sector (b : List Nat) : super_t :=
  { bytes_per_sector := le16 b 11, sectors_per_cluster := byte_at b 13,
    reserved_sectors := le16 b 14, fat_count := byte_at b 16,
    root_dir_capacity := le16 b 17, logical_sectors16 := le16 b 19,
    sectors_per_fat := le16 b 22, logical_sectors32 := le32 b 32 }

/-- The fields of `struct volume_t`; `fat` holds the bytes of the in-memory FAT. -/
structure volume_t where
  super : super_t
  disk : List Nat
  fat : List Nat
  fat_size : Nat
  total_sectors : Nat
  root_dir_sectors : Nat
  first_data_sector : Nat
  first_fat_sector : Nat
  data_sectors : Nat
  total_clusters : Nat
  first_root_dir_sector : Nat
  deriving DecidableEq, Repr

/-- The geometry assignments of `fat_open` (`volume->total_sectors` down to
`volume->first_root_dir_sector`), in the order of the source, on a fresh `malloc`
block whose fields `root_dir_sectors` and `total_clusters` hold the indeterminate
values `heap_root_dir_sectors` and `heap_total_clusters`: `data_sectors` is
computed from `volume->root_dir_sectors` before that field is assigned, and
`total_clusters` is never assigned.  The fields of `volume_t` are `uint16_t`
except `fat_size` and `data_sectors`, which are `uint32_t`; the right-hand sides
are `int` expressions.  The field `fat` is filled in afterwards. -/
def fat_open_geometry (super : super_t) (pdisk : List Nat)
    (heap_root_dir_sectors heap_total_clusters : Nat) : volume_t :=
  let total_sectors :=
    if to_uint16 super.logical_sectors16 = 0 then to_uint16 super.logical_sectors32
    else to_uint16 super.logical_sectors16
  let fat_size := to_uint32 (super.sectors_per_fat * super.bytes_per_sector)
  let data_sectors := to_uint32 ((total_sectors : Int) - (super.reserved_sectors
    + super.fat_count * super.sectors_per_fat + heap_root_dir_sectors))
  let first_fat_sector := to_uint16 super.reserved_sectors
  let root_dir_sectors := to_uint16 (((super.root_dir_capacity * 32
    + (super.bytes_per_sector - 1)) / super.bytes_per_sector : Nat))
  let first_data_sector := to_uint16 (super.reserved_sectors
    + super.fat_count * super.sectors_per_fat + root_dir_sectors)
  let first_root_dir_sector := to_uint16 ((first_data_sector : Int) - root_dir_sectors)
  { super := super, disk := pdisk, fat := [], fat_size := fat_size,
    total_sectors := total_sectors, root_dir_sectors := root_dir_sectors,
    first_data_sector := first_data_sector, first_fat_sector := first_fat_sector,
    data_sectors := data_sectors, total_clusters := heap_total_clusters,
    first_root_dir_sector := first_root_dir_sector }

/-- The second half of `fat_open`: reading the first FAT into `volume->fat` and
checking it against the second copy.  The two buffers start uninitialised; every
byte read from them is one that a successful `disk_read` has written.  When the
first read fails the source frees the volume and goes on using it: undefined. -/
def fat_open_load (pdisk : List Nat) (volume : volume_t) : Result volume_t :=
  let res1 := disk_read pdisk volume.first_fat_sector [] volume.super.sectors_per_fat
  if res1.ret ≠ volume.super.sectors_per_fat then Result.undefined
  else
    let res2 := disk_read pdisk (volume.first_fat_sector + volume.super.sectors_per_fat) []
      volume.super.sectors_per_fat
    if res2.ret ≠ volume.super.sectors_per_fat then Result.fail res2.errno
    else if res1.buffer.take volume.fat_size ≠ res2.buffer.take volume.fat_size then
      Result.fail (some Errno.EINVAL)
    else Result.ok { volume with fat := res1.buffer }

/-- `fat_open(pdisk, first_sector)`.  `super` starts uninitialised; every field
read from it lies in the 512 bytes that the successful `disk_read` has written. -/
def fat_open (pdisk : List Nat) (first_sector : Nat)
    (heap_root_dir_sectors heap_total_clusters : Nat) : Result volume_t :=
  let res := disk_read pdisk (to_int32 first_sector) [] 1
  if res.ret ≠ 1 then Result.fail res.errno
  else
    let super := super_of_sector res.buffer
    if super.bytes_per_sector ≠ 512 then Result.fail (some Errno.EINVAL)
    else
      fat_open_load pdisk
        (fat_open_geometry super pdisk heap_root_dir_sectors heap_total_clusters)

/-! ## File stream: `file_t` -/

/-- The fields of `struct file_t`; `data` is the payload buffer (`ptr_to_data`
aliases it). -/
structure file_t where
  name : List Nat
  extension : List Nat
  size : Nat
  starting_cluster : Nat
  cluster_chain : List Nat
  number_of_clusters : Int
  data : List Nat
  current_position : Nat
  deriving DecidableEq, Repr

/-! ## Directory entries -/

/-- The 32-byte slot number `j` of a sector buffer (`memcpy(current_entry,
&buffer[j * 32], 32)`). -/
def slot_at (buffer : List Nat) (j : Nat) : List Nat := (buffer.drop (j * 32)).take 32

/-- Field `name[8]` of a directory entry. -/
def entry_name (e : List Nat) : List Nat := e.take 8

/-- Field `extension[3]` of a directory entry. -/
def entry_extension (e : List Nat) : List Nat := (e.drop 8).take 3

/-- Field `attributes` of a directory entry (offset 11). -/
def entry_attributes (e : List Nat) : Nat := byte_at e 11

/-- Field `starting_cluster` of a directory entry (offset 26). -/
def entry_starting_cluster (e : List Nat) : Nat := le16 e 26

/-- Field `file_size` of a directory entry (offset 28). -/
def entry_file_size (e : List Nat) : Nat := le32 e 28

/-! ## File stream: `file_open` -/

/-- One call of `strtok(.., ".")` on the rest of the string: the token found and
the rest after its delimiter, or `none` when only delimiters are left. -/
def strtok_dot (s : List Nat) : Option (List Nat × List Nat) :=
  let s1 := s.dropWhile (fun c => c == 46)
  if s1 = [] then none
  else some (s1.takeWhile (fun c => c != 46), (s1.dropWhile (fun c => c != 46)).drop 1)

/-- `strncpy(dest, src, n)`: the first `n` bytes of `src`, NUL padded to `n`. -/
def strncpy (dest src : List Nat) (n : Nat) : List Nat :=
  memcpy_at dest 0 ((src ++ zeros n).take n)

/-- `split_filename(filename, name, ext)`: the new contents of `name` and `ext`. -/
def split_filename (filename name ext : List Nat) : List Nat × List Nat :=
  match strtok_dot (cstr filename) with
  | none => (name, ext)
  | some (token, rest) =>
    match strtok_dot rest with
    | none => (strncpy name token 8, ext)
    | some (token2, _) => (strncpy name token 8, strncpy ext token2 3)

/-- `fill_name_with_spaces(name, size)`. -/
def fill_name_with_spaces (name : List Nat) (size : Nat) : List Nat :=
  (name.take size).map (fun c => if isalpha c then c else 32) ++ name.drop size

/-- Entry `k` of the in-memory FAT (`pvolume->fat[k]`, a `uint16_t`), `none`
when the access lies outside the buffer. -/
def fat_entry (fat : List Nat) (k : Nat) : Option Nat :=
  if 2 * k + 1 < fat.length then some (le16 fat (2 * k)) else none

/-- The walk `for (k = starting_cluster; k < 0xFFF8;) { ..; k = fat[k]; }`: the
clusters visited, in order.  `none` when an access leaves the FAT or the fuel
runs out.  The source runs the same walk twice, first counting, then storing. -/
def cluster_walk (fat : List Nat) : Nat → Nat → Option (List Nat)
  | 0, _ => none
  | fuel + 1, k =>
    if k < 65528 then
      match fat_entry fat k with
      | none => none
      | some next => (cluster_walk fat fuel next).map (fun cs => k :: cs)
    else some []

/-- Fuel for `cluster_walk` in `file_open`: a walk that returns visits each of the
65528 cluster numbers below `0xFFF8` at most once, so it makes at most 65528
steps and one final test; a walk that needs more revisits a cluster and never
returns. -/
def walk_fuel : Nat := 65529

/-- The payload loop of `file_open`, `for (k = 0; k < number_of_clusters &&
sectors_read * 512 < size; k++)`, over the clusters still to read; `k` equals
`sectors_read`.  `none` when the `memcpy` would leave the payload buffer. -/
def load_clusters (disk : List Nat) (first_data_sector : Nat) (size : Nat) :
    List Nat → Nat → List Nat → List Nat → Option (List Nat)
  | [], _, _, data => some data
  | c :: cs, k, iterator, data =>
    if to_uint32 (k * 512) < size then
      let iterator1 := (disk_read disk ((first_data_sector : Int) + c - 2) iterator 1).buffer
      if k * 512 + 512 ≤ data.length then
        load_clusters disk first_data_sector size cs (k + 1) iterator1
          (memcpy_at data (k * 512) (iterator1.take 512))
      else none
    else some data

/-- The body of `file_open` for the entry that matched the query. -/
def file_open_match (pvolume : volume_t) (name ext current_entry : List Nat) :
    Result file_t :=
  if entry_attributes current_entry &&& 16 ≠ 0 then Result.fail (some Errno.EISDIR)
  else
    let size := entry_file_size current_entry
    let starting_cluster := entry_starting_cluster current_entry
    match cluster_walk pvolume.fat walk_fuel starting_cluster with
    | none => Result.undefined
    | some cluster_chain =>
      match load_clusters pvolume.disk pvolume.first_data_sector size cluster_chain 0
          (zeros 512) (zeros (to_uint32 (size + 1 + 512))) with
      | none => Result.undefined
      | some data =>
        Result.ok
          { name := name, extension := ext, size := size,
            starting_cluster := starting_cluster, cluster_chain := cluster_chain,
            number_of_clusters := cluster_chain.length, data := data,
            current_position := 0 }

/-- The loop `for (j = 0; j < 512 / 32; j++)` of `file_open` (first argument:
`16 - j`): the result of the first matching slot, `none` when no slot matches. -/
def file_open_sector (pvolume : volume_t) (name ext buffer : List Nat) :
    Nat → Nat → Option (Result file_t)
  | 0, _ => none
  | r + 1, j =>
    let current_entry := slot_at buffer j
    if entry_name current_entry = name ∧ entry_extension current_entry = ext then
      some (file_open_match pvolume name ext current_entry)
    else file_open_sector pvolume name ext buffer r (j + 1)

/-- The loop `for (i = 0; i < pvolume->root_dir_sectors; i++)` of `file_open`
(first argument: `root_dir_sectors - i`).  Every iteration reads the sector
`first_root_dir_sector`; the return value of `disk_read` is not looked at. -/
def file_open_scan (pvolume : volume_t) (name ext : List Nat) :
    Nat → List Nat → Result file_t
  | 0, _ => Result.fail (some Errno.ENOENT)
  | r + 1, buffer =>
    let buffer1 := (disk_read pvolume.disk pvolume.first_root_dir_sector buffer 1).buffer
    match file_open_sector pvolume name ext buffer1 16 0 with
    | some res => res
    | none => file_open_scan pvolume name ext r buffer1

/-- The 8-byte name and the 3-byte extension that `file_open` compares with the
directory slots. -/
def file_open_query (file_name : List Nat) : List Nat × List Nat :=
  let r := split_filename file_name (zeros 8) (zeros 3)
  (fill_name_with_spaces r.1 8, fill_name_with_spaces r.2 3)

/-- `file_open(pvolume, file_name)`. -/
def file_open (pvolume : volume_t) (file_name : List Nat) : Result file_t :=
  let q := file_open_query file_name
  file_open_scan pvolume q.1 q.2 pvolume.root_dir_sectors (zeros 512)

/-! ## File stream: `file_read`, `file_seek` -/

/-- The loop of `file_read`.  The first argument is `size * nmemb - i`, so the
loop condition `i < size * nmemb` is "the first argument is a successor"; the
state is `i`, the destination buffer, `read_bytes` (an `int`) and
`stream->current_position` (a `uint32_t`). -/
def file_read_loop (stream_size : Nat) (data : List Nat) :
    Nat → Nat → List Nat → Int → Nat → List Nat × Int × Nat
  | 0, _, out_ptr, read_bytes, pos => (out_ptr, read_bytes, pos)
  | r + 1, i, out_ptr, read_bytes, pos =>
    if pos < stream_size then
      file_read_loop stream_size data r (i + 1) (out_ptr.set i (data.getD pos 0))
        (to_int32 (read_bytes + 1)) ((pos + 1) % 4294967296)
    else (out_ptr, read_bytes, pos)

/-- Result of `file_read`: the returned `size_t`, the destination buffer and the
stream afterwards. -/
structure read_result where
  ret : Nat
  ptr : List Nat
  stream : file_t
  deriving DecidableEq, Repr

/-- `file_read(ptr, size, nmemb, stream)`.  The product `size * nmemb` is a
`size_t` product; `read_bytes / size` converts `read_bytes` to `size_t`. -/
def file_read (ptr : List Nat) (size nmemb : Nat) (stream : file_t) : read_result :=
  let r := file_read_loop stream.size stream.data ((size * nmemb) % 18446744073709551616) 0 ptr 0
    stream.current_position
  { ret := to_size_t r.2.1 / size, ptr := r.1,
    stream := { stream with current_position := r.2.2 } }

/-- Result of `file_seek`: the returned `int32_t`, the `errno` stored (if any)
and the stream afterwards. -/
structure seek_result where
  ret : Int
  errno : Option Errno
  stream : file_t
  deriving DecidableEq, Repr

/-- `file_seek(stream, offset, whence)` with `SEEK_SET = 0`, `SEEK_CUR = 1`,
`SEEK_END = 2`; `new_position` is a `uint32_t`, the return type is `int32_t`. -/
def file_seek (stream : file_t) (offset : Int) (whence : Int) : seek_result :=
  let finish (new_position : Nat) : seek_result :=
    if new_position > stream.size then
      { ret := -1, errno := some Errno.ENXIO, stream := stream }
    else
      { ret := to_int32 new_position, errno := none,
        stream := { stream with current_position := new_position } }
  if whence = 0 then finish (to_uint32 offset)
  else if whence = 1 then finish (to_uint32 (stream.current_position + offset))
  else if whence = 2 then finish (to_uint32 (stream.size + offset))
  else { ret := -1, errno := some Errno.EINVAL, stream := stream }

/-! ## Directory view: `remove_spaces_from_name`, `dir_open`, `dir_read` -/

/-- The loop `while (*iterator && isalpha(*iterator)) out->name[i++] = *iterator++;`
of the first branch of `remove_spaces_from_name`; the first argument is the memory
from `iterator` on.  Returns `i` and the output buffer. -/
def name_run : List Nat → Nat → List Nat → Nat × List Nat
  | [], i, out => (i, out)
  | c :: cs, i, out =>
    if c ≠ 0 ∧ isalpha c then name_run cs (i + 1) (out.set i c) else (i, out)

/-- The loop `while (*iterator && isalpha(*iterator) && i < 8) ..` of the second
branch of `remove_spaces_from_name`. -/
def name_run8 : List Nat → Nat → List Nat → Nat × List Nat
  | [], i, out => (i, out)
  | c :: cs, i, out =>
    if c ≠ 0 ∧ isalpha c ∧ i < 8 then name_run8 cs (i + 1) (out.set i c) else (i, out)

/-- The loop `for (j = 0; j < how_many_in_ext; j++) out->name[i++] = *iterator++;`
(second argument: `how_many_in_ext - j`). -/
def ext_copy : List Nat → Nat → Nat → List Nat → Nat × List Nat
  | _, 0, i, out => (i, out)
  | [], _ + 1, i, out => (i, out)
  | c :: cs, r + 1, i, out => ext_copy cs r (i + 1) (out.set i c)

/-- `remove_spaces_from_name(dir, out)`: the contents of `out->name` afterwards,
given the 32 bytes of the entry `dir` and the previous contents of `out->name`. -/
def remove_spaces_from_name (dir out : List Nat) : List Nat :=
  if dir.getD 8 0 = 32 then
    let r := name_run dir 0 out
    r.2.set r.1 0
  else
    let r := name_run8 dir 0 out
    let out1 := r.2.set r.1 46
    let how_many_in_ext := ((dir.drop 8).take 3).countP isalpha
    let r2 := ext_copy (dir.drop 8) how_many_in_ext (r.1 + 1) out1
    r2.2.set r2.1 0

/-- `dir_or_file(dir)`: 0 for a volume label, 1 otherwise. -/
def dir_or_file (dir : List Nat) : Nat :=
  if entry_attributes dir &&& 8 ≠ 0 then 0 else 1

/-- The fields of `struct dir_t`; an entry of `files` is the 32-byte `name` of a
`struct dir_entry_t`. -/
structure dir_t where
  nr_of_files : Int
  files : List (List Nat)
  current : Int
  deriving DecidableEq, Repr

/-- C's `!x` on an integer. -/
def c_not (x : Nat) : Nat := if x = 0 then 1 else 0

/-- The inner loop of the path check of `dir_open` (first argument `16 - j`).
`none`: the `ENOTDIR` return was taken; otherwise `is_found` and `end_flag`.
The condition is the source's `strcmp(..) == 0 && (!attributes & ATTR_DIRECTORY)
|| attributes & ATTR_VOLUME_ID`, where `!` applies to `attributes` alone.
`temporary` is uninitialised; `strcmp` stops at the NUL that
`remove_spaces_from_name` has just written. -/
def dir_gate_sector (dir_path buffer : List Nat) : Nat → Nat → Bool → Option (Bool × Bool)
  | 0, _, is_found => some (is_found, false)
  | r + 1, j, is_found =>
    let current_entry := slot_at buffer j
    let temporary := remove_spaces_from_name current_entry (zeros 32)
    if (cstr temporary = cstr dir_path ∧ c_not (entry_attributes current_entry) &&& 16 ≠ 0)
        ∨ entry_attributes current_entry &&& 8 ≠ 0 then none
    else
      let is_found1 := is_found ||
        decide (cstr temporary = cstr dir_path ∧ entry_attributes current_entry &&& 16 ≠ 0)
      if current_entry.getD 0 0 = 0 then some (is_found1, true)
      else dir_gate_sector dir_path buffer r (j + 1) is_found1

/-- The outer loop of the path check of `dir_open` (first argument
`root_dir_sectors - i`): `none` for the `ENOTDIR` return, otherwise `is_found`
and the sector buffer. -/
def dir_gate (pvolume : volume_t) (dir_path : List Nat) :
    Nat → List Nat → Bool → Option (Bool × List Nat)
  | 0, buffer, is_found => some (is_found, buffer)
  | r + 1, buffer, is_found =>
    let buffer1 := (disk_read pvolume.disk pvolume.first_root_dir_sector buffer 1).buffer
    match dir_gate_sector dir_path buffer1 16 0 is_found with
    | none => none
    | some (is_found1, true) => some (is_found1, buffer1)
    | some (is_found1, false) => dir_gate pvolume dir_path r buffer1 is_found1

/-- The inner loop of the counting pass of `dir_open`: `nr_of_files` and
`end_flag` afterwards. -/
def dir_count_sector (buffer : List Nat) : Nat → Nat → Int → Int × Bool
  | 0, _, nr_of_files => (nr_of_files, false)
  | r + 1, j, nr_of_files =>
    let current_entry := slot_at buffer j
    if dir_or_file current_entry = 0 then dir_count_sector buffer r (j + 1) nr_of_files
    else if current_entry.getD 0 0 = 229 then dir_count_sector buffer r (j + 1) nr_of_files
    else if current_entry.getD 0 0 = 0 then (nr_of_files, true)
    else dir_count_sector buffer r (j + 1) (nr_of_files + 1)

/-- The outer loop of the counting pass of `dir_open`: `nr_of_files` and the
sector buffer afterwards. -/
def dir_count (pvolume : volume_t) : Nat → List Nat → Int → Int × List Nat
  | 0, buffer, nr_of_files => (nr_of_files, buffer)
  | r + 1, buffer, nr_of_files =>
    let buffer1 := (disk_read pvolume.disk pvolume.first_root_dir_sector buffer 1).buffer
    match dir_count_sector buffer1 16 0 nr_of_files with
    | (n, true) => (n, buffer1)
    | (n, false) => dir_count pvolume r buffer1 n

/-- The inner loop of the filling pass of `dir_open`: `iter`, `dir->files` and
`end_flag` afterwards.  `none` when `dir->files[iter]` lies outside the array. -/
def dir_fill_sector (buffer : List Nat) :
    Nat → Nat → Nat → List (List Nat) → Option (Nat × List (List Nat) × Bool)
  | 0, _, iter, files => some (iter, files, false)
  | r + 1, j, iter, files =>
    let current_entry := slot_at buffer j
    if dir_or_file current_entry = 0 then dir_fill_sector buffer r (j + 1) iter files
    else if current_entry.getD 0 0 = 229 then dir_fill_sector buffer r (j + 1) iter files
    else if current_entry.getD 0 0 = 0 then some (iter, files, true)
    else
      match files.get? iter with
      | none => none
      | some out =>
        dir_fill_sector buffer r (j + 1) (iter + 1)
          (files.set iter (remove_spaces_from_name current_entry out))

/-- The outer loop of the filling pass of `dir_open`: `dir->files` afterwards. -/
def dir_fill (pvolume : volume_t) :
    Nat → List Nat → Nat → List (List Nat) → Option (List (List Nat))
  | 0, _, _, files => some files
  | r + 1, buffer, iter, files =>
    let buffer1 := (disk_read pvolume.disk pvolume.first_root_dir_sector buffer 1).buffer
    match dir_fill_sector buffer1 16 0 iter files with
    | none => none
    | some (_, files1, true) => some files1
    | some (iter1, files1, false) => dir_fill pvolume r buffer1 iter1 files1

/-- The listing part of `dir_open` (counting pass, `calloc`, filling pass),
entered with the sector buffer left by the path check. -/
def dir_open_list (pvolume : volume_t) (buffer : List Nat) : Result dir_t :=
  let c := dir_count pvolume pvolume.root_dir_sectors buffer 0
  match dir_fill pvolume pvolume.root_dir_sectors c.2 0
      (List.replicate c.1.toNat (zeros 32)) with
  | none => Result.undefined
  | some files => Result.ok { nr_of_files := c.1, files := files, current := 0 }

/-- The root marker: the one-character string of a backslash. -/
def root_path : List Nat := [92]

/-- `dir_open(pvolume, dir_path)`. -/
def dir_open (pvolume : volume_t) (dir_path : List Nat) : Result dir_t :=
  if cstr dir_path ≠ root_path then
    match dir_gate pvolume dir_path pvolume.root_dir_sectors (zeros 512) false with
    | none => Result.fail (some Errno.ENOTDIR)
    | some (is_found, buffer) =>
      if is_found = false then Result.fail (some Errno.ENOENT)
      else dir_open_list pvolume buffer
  else dir_open_list pvolume (zeros 512)

/-- Result of `dir_read`: the returned `int`, the directory afterwards and the
contents of `*pentry` afterwards. -/
structure dir_read_result where
  ret : Int
  pdir : dir_t
  pentry : List Nat
  deriving DecidableEq, Repr

/-- `dir_read(pdir, pentry)`; `none` when `pdir->files[pdir->current]` lies
outside the array. -/
def dir_read (pdir : dir_t) (pentry : List Nat) : Option dir_read_result :=
  if pdir.current = pdir.nr_of_files then some { ret := 1, pdir := pdir, pentry := pentry }
  else if pdir.current < 0 then none
  else
    match pdir.files.get? pdir.current.toNat with
    | none => none
    | some e =>
      some { ret := 0, pdir := { pdir with current := to_int32 (pdir.current + 1) },
             pentry := memcpy_at pentry 0 e }

/-! ## Definitions used to state the properties -/

/-- The position that `whence` designates as the origin of a seek. -/
def seek_base (stream : file_t) (whence : Int) : Int :=
  if whence = 0 then 0 else if whence = 1 then stream.current_position else stream.size

/-- A handle on a 7-byte file, cursor at 3. -/
def small_handle : file_t :=
  { name := [], extension := [], size := 7, starting_cluster := 2, cluster_chain := [2],
    number_of_clusters := 1, data := [72, 69, 76, 76, 79, 13, 10] ++ zeros 513,
    current_position := 3 }

/-- A handle on a file of 2 GiB, cursor at 0. -/
def huge_handle : file_t :=
  { name := [], extension := [], size := 2147483648, starting_cluster := 2,
    cluster_chain := [2], number_of_clusters := 1, data := zeros 2147484161,
    current_position := 0 }

/-- The number of bytes a `file_read` request can produce: the requested
`size * nmemb`, limited by what is left between the cursor and the end. -/
def read_count (size nmemb : Nat) (stream : file_t) : Nat :=
  min (size * nmemb) (stream.size - stream.current_position)

/-- The directory and the contents of `*pentry` after `k` successive calls of
`dir_read` (`none` when one of them left the array). -/
def dir_read_iter : Nat → dir_t → List Nat → Option (dir_t × List Nat)
  | 0, pdir, pentry => some (pdir, pentry)
  | k + 1, pdir, pentry =>
    match dir_read_iter k pdir pentry with
    | none => none
    | some (d, e) =>
      match dir_read d e with
      | none => none
      | some r => some (r.pdir, r.pentry)

/-- A snapshot with three entries, cursor at 0. -/
def demo_dir : dir_t :=
  { nr_of_files := 3,
    files := [[65] ++ zeros 31, [66, 46, 67] ++ zeros 29, [68] ++ zeros 31],
    current := 0 }

/-- The bytes that `remove_spaces_from_name` writes before the terminating NUL:
the leading letters of `name`; when `extension[0]` is not a space, a dot and the
first `k` bytes of `extension`, `k` being the number of letters among its three
bytes. -/
def normalized_bytes (dir : List Nat) : List Nat :=
  if dir.getD 8 0 = 32 then (entry_name dir).takeWhile isalpha
  else (entry_name dir).takeWhile isalpha ++ [46]
    ++ (entry_extension dir).take ((entry_extension dir).countP isalpha)

/-- The normalized name in the words of the specification: the leading letters of
`name`; when `extension[0]` is not a space, a dot and the letters of `extension`
in their order. -/
def normalized_name_claimed (dir : List Nat) : List Nat :=
  if dir.getD 8 0 = 32 then (entry_name dir).takeWhile isalpha
  else (entry_name dir).takeWhile isalpha ++ [46] ++ (entry_extension dir).filter isalpha

/-- A 32-byte directory entry with the given name, extension, attributes, starting
cluster and file size; the reserved bytes and the time stamps are zero. -/
def mk_entry (name8 ext3 : List Nat) (attr cluster size : Nat) : List Nat :=
  name8 ++ ext3 ++ [attr] ++ zeros 14 ++ [cluster % 256, cluster / 256,
    size % 256, size / 256 % 256, size / 65536 % 256, size / 16777216]

/-- The entry `AB.A1B`: a digit inside the extension. -/
def entry_ab_a1b : List Nat :=
  mk_entry [65, 66, 32, 32, 32, 32, 32, 32] [65, 49, 66] 32 2 0

/-- The entry `README.TXT`. -/
def entry_readme : List Nat :=
  mk_entry [82, 69, 65, 68, 77, 69, 32, 32] [84, 88, 84] 32 2 7

/-- The `n` sectors of an image that start at sector `first`. -/
def sectors_at (disk : List Nat) (first n : Nat) : List Nat :=
  (disk.drop (512 * first)).take (512 * n)

/-- A boot sector with the given BPB fields (`media_type` 0xF8, all other bytes
zero). -/
def bpb_sector (bps spc reserved fat_count root_cap spf total16 : Nat) : List Nat :=
  zeros 11 ++ [bps % 256, bps / 256, spc, reserved % 256, reserved / 256, fat_count,
    root_cap % 256, root_cap / 256, total16 % 256, total16 / 256, 248, spf % 256, spf / 256]
    ++ zeros 488

/-- A FAT sector: the media entry, the reserved entry, then cluster 2 free and
cluster 3 end-of-chain. -/
def fat_sector_a : List Nat := [248, 255, 255, 255, 0, 0, 255, 255] ++ zeros 504

/-- An 8-sector image with two sectors per cluster: boot sector, two FAT copies,
one root sector holding the 4-byte file `A` (cluster 3), and four data sectors
filled with 1, 2, 3 and 4. -/
def img_a : List Nat :=
  bpb_sector 512 2 1 2 16 1 8 ++ (fat_sector_a ++ (fat_sector_a
  ++ (mk_entry [65, 32, 32, 32, 32, 32, 32, 32] [32, 32, 32] 32 3 4 ++ (zeros 480
  ++ (List.replicate 512 1 ++ (List.replicate 512 2 ++ (List.replicate 512 3
  ++ List.replicate 512 4)))))))

/-- The volume that `fat_open` returns for `img_a`. -/
def vol_a : volume_t :=
  { super := { bytes_per_sector := 512, sectors_per_cluster := 2, reserved_sectors := 1,
               fat_count := 2, root_dir_capacity := 16, logical_sectors16 := 8,
               sectors_per_fat := 1, logical_sectors32 := 0 },
    disk := img_a, fat := fat_sector_a, fat_size := 512, total_sectors := 8,
    root_dir_sectors := 1, first_data_sector := 4, first_fat_sector := 1,
    data_sectors := 5, total_clusters := 0, first_root_dir_sector := 3 }

/-- A one-sector image whose boot sector announces 1024 bytes per sector. -/
def img_bps1024 : List Nat := bpb_sector 1024 1 1 2 16 1 1

/-- An image of exactly `2^31` bytes: a boot sector (one reserved sector, two FATs
of one sector) followed by zero bytes, so that both FAT copies are all zero. -/
def img_2gib : List Nat := bpb_sector 512 1 1 2 16 1 0 ++ zeros 2147483136

/-- The BPB held by sector 0 of an image. -/
def bpb_of (pdisk : List Nat) : super_t := super_of_sector (sectors_at pdisk 0 1)

/-- The on-disk FAT copy number `i` of a volume at sector 0 of an image:
`sectors_per_fat` sectors starting at `reserved_sectors + i * sectors_per_fat`. -/
def fat_copy (pdisk : List Nat) (i : Nat) : List Nat :=
  sectors_at pdisk ((bpb_of pdisk).reserved_sectors + i * (bpb_of pdisk).sectors_per_fat)
    (bpb_of pdisk).sectors_per_fat


/-- A FAT sector that differs from `fat_sector_a` in the entry of cluster 2. -/
def fat_sector_b : List Nat := [248, 255, 255, 255, 255, 255, 255, 255] ++ zeros 504

/-- A 5-sector image with three FAT copies, the third one different from the
first two, and an empty root directory. -/
def img_3fats : List Nat :=
  bpb_sector 512 1 1 3 16 1 5 ++ (fat_sector_a ++ (fat_sector_a ++ (fat_sector_b
  ++ zeros 512)))

/-- An image with one reserved sector and 255 FATs of 257 sectors, all zero: the
boot sector followed by 514 zero sectors, enough for the first two FAT copies. -/
def img_wrap : List Nat := bpb_sector 512 1 1 255 16 257 0 ++ zeros 263168

/-- The image `img_a` with `logical_sectors16 = 0` and `logical_sectors32 = 65544`
in its boot sector. -/
def img_ls32 : List Nat := memcpy_at (memcpy_at img_a 19 [0, 0]) 32 [8, 0, 1, 0]

/-- The fields `total_sectors` and `data_sectors` of a mounted volume. -/
def mounted_sector_counts (r : Result volume_t) : Option (Nat × Nat) :=
  match r with
  | Result.ok v => some (v.total_sectors, v.data_sectors)
  | _ => none


/-- The normalized name of a directory slot, written into a zeroed
`struct dir_entry_t`. -/
def normalized (e : List Nat) : List Nat := remove_spaces_from_name e (zeros 32)

/-- The slots that one pass over a sector buffer lists (first argument `16 - j`),
and whether the pass met the terminator: the conditions of the counting and
filling passes of `dir_open`, in their order. -/
def live_slots_sector (buffer : List Nat) : Nat → Nat → List (List Nat) × Bool
  | 0, _ => ([], false)
  | r + 1, j =>
    let e := slot_at buffer j
    if dir_or_file e = 0 then live_slots_sector buffer r (j + 1)
    else if e.getD 0 0 = 229 then live_slots_sector buffer r (j + 1)
    else if e.getD 0 0 = 0 then ([], true)
    else ((e :: (live_slots_sector buffer r (j + 1)).1), (live_slots_sector buffer r (j + 1)).2)

/-- The slots listed by `n` passes over the same sector buffer, stopping after a
pass that met the terminator. -/
def live_slots_repeat (buffer : List Nat) : Nat → List (List Nat)
  | 0 => []
  | n + 1 =>
    if (live_slots_sector buffer 16 0).2 then (live_slots_sector buffer 16 0).1
    else (live_slots_sector buffer 16 0).1 ++ live_slots_repeat buffer n

/-- The sector buffer after `dir_open` or `file_open` has read the first root
sector into its zeroed 512-byte buffer. -/
def root_buffer (pvolume : volume_t) : List Nat :=
  (disk_read pvolume.disk pvolume.first_root_dir_sector (zeros 512) 1).buffer

/-- The first root sector of `img_b`: sixteen files named `A` to `P`. -/
def root_b0 : List Nat :=
  (List.range 16).flatMap (fun i =>
    mk_entry ([65 + i] ++ List.replicate 7 32) [32, 32, 32] 32 0 0)

/-- The second root sector of `img_b`: the directory `DATA.BIN`, the file `Q` and
the terminator. -/
def root_b1 : List Nat :=
  mk_entry [68, 65, 84, 65, 32, 32, 32, 32] [66, 73, 78] 16 0 0
  ++ (mk_entry [81, 32, 32, 32, 32, 32, 32, 32] [32, 32, 32] 32 0 0 ++ zeros 448)

/-- An 8-sector image whose root directory has two sectors (`root_dir_capacity`
32): boot sector, two FAT copies, `root_b0`, `root_b1`, three data sectors. -/
def img_b : List Nat :=
  bpb_sector 512 1 1 2 32 1 8 ++ (fat_sector_a ++ (fat_sector_a ++ (root_b0 ++ (root_b1
  ++ zeros 1536))))

/-- The volume that `fat_open` returns for `img_b`. -/
def vol_b : volume_t :=
  { super := { bytes_per_sector := 512, sectors_per_cluster := 1, reserved_sectors := 1,
               fat_count := 2, root_dir_capacity := 32, logical_sectors16 := 8,
               sectors_per_fat := 1, logical_sectors32 := 0 },
    disk := img_b, fat := fat_sector_a, fat_size := 512, total_sectors := 8,
    root_dir_sectors := 2, first_data_sector := 5, first_fat_sector := 1,
    data_sectors := 5, total_clusters := 0, first_root_dir_sector := 3 }

/-- A FAT sector in which cluster 2 links to itself and cluster 3 ends a chain. -/
def fat_sector_c : List Nat := [248, 255, 255, 255, 2, 0, 255, 255] ++ zeros 504

/-- The root sector of `img_c`: the volume label `VOL`, the empty file `E`
(starting cluster 0), the file `LOOP` (starting cluster 2), the file `OUT`
(starting cluster 300, beyond the 256 entries of the FAT), the terminator, and
after it the file `A` (cluster 3, 4 bytes). -/
def root_c : List Nat :=
  mk_entry [86, 79, 76, 32, 32, 32, 32, 32] [32, 32, 32] 8 0 0
  ++ (mk_entry [69, 32, 32, 32, 32, 32, 32, 32] [32, 32, 32] 32 0 0
  ++ (mk_entry [76, 79, 79, 80, 32, 32, 32, 32] [32, 32, 32] 32 2 512
  ++ (mk_entry [79, 85, 84, 32, 32, 32, 32, 32] [32, 32, 32] 32 300 512
  ++ (zeros 32
  ++ (mk_entry [65, 32, 32, 32, 32, 32, 32, 32] [32, 32, 32] 32 3 4
  ++ zeros 320)))))

/-- An 8-sector image: boot sector (one sector per cluster), two copies of
`fat_sector_c`, the root sector `root_c`, and four data sectors filled with 1, 2,
3 and 4. -/
def img_c : List Nat :=
  bpb_sector 512 1 1 2 16 1 8 ++ (fat_sector_c ++ (fat_sector_c ++ (root_c
  ++ (List.replicate 512 1 ++ (List.replicate 512 2 ++ (List.replicate 512 3
  ++ List.replicate 512 4))))))

/-- The volume that `fat_open` returns for `img_c`. -/
def vol_c : volume_t :=
  { super := { bytes_per_sector := 512, sectors_per_cluster := 1, reserved_sectors := 1,
               fat_count := 2, root_dir_capacity := 16, logical_sectors16 := 8,
               sectors_per_fat := 1, logical_sectors32 := 0 },
    disk := img_c, fat := fat_sector_c, fat_size := 512, total_sectors := 8,
    root_dir_sectors := 1, first_data_sector := 4, first_fat_sector := 1,
    data_sectors := 5, total_clusters := 0, first_root_dir_sector := 3 }

/-- The names, as C strings, of the snapshot that a `dir_open` call returned. -/
def listing_of (r : Result dir_t) : Option (List (List Nat)) :=
  match r with
  | Result.ok d => some (d.files.map cstr)
  | _ => none

/-- The slots of the root directory in the words of the specification: the
sixteen slots of each of the `root_dir_sectors` sectors that start at
`first_root_dir_sector`, one sector after the other. -/
def root_slots_claimed (pvolume : volume_t) : List (List Nat) :=
  (List.range pvolume.root_dir_sectors).flatMap (fun i =>
    (List.range 16).map (fun j =>
      slot_at (sectors_at pvolume.disk (pvolume.first_root_dir_sector + i) 1) j))

/-- The root listing in the words of the specification: the normalized names of
the slots before the first one whose first byte is 0x00, without the slots whose
first byte is 0xE5 and those with the VOLUME_ID attribute. -/
def root_listing_claimed (pvolume : volume_t) : List (List Nat) :=
  (((root_slots_claimed pvolume).takeWhile (fun e => e.getD 0 0 != 0)).filter
    (fun e => e.getD 0 0 != 229 && entry_attributes e &&& 8 == 0)).map
    (fun e => cstr (normalized e))

/-- The cluster chain stored in the handle that a `file_open` call returned. -/
def handle_chain (r : Result file_t) : Option (List Nat) :=
  match r with
  | Result.ok f => some f.cluster_chain
  | _ => none

/-- The bytes that reading a handle to the end of the file produces: one
`file_read` of `size` elements of one byte into a buffer of `size` bytes. -/
def read_to_eof (r : Result file_t) : Option (List Nat) :=
  match r with
  | Result.ok f => some (file_read (zeros f.size) 1 f.size f).ptr
  | _ => none

/-- The bytes of a cluster in the words of the specification: the
`sectors_per_cluster` sectors that start at sector
`first_data_sector + (c - 2) * sectors_per_cluster`. -/
def cluster_bytes_claimed (pvolume : volume_t) (c : Nat) : List Nat :=
  sectors_at pvolume.disk
    (pvolume.first_data_sector + (c - 2) * pvolume.super.sectors_per_cluster)
    pvolume.super.sectors_per_cluster

/-- The contents of a file in the words of the specification: the first `size`
bytes of the clusters of the chain, in chain order. -/
def file_bytes_claimed (pvolume : volume_t) (chain : List Nat) (size : Nat) : List Nat :=
  (chain.flatMap (cluster_bytes_claimed pvolume)).take size

/-- The contents of a file as `file_open` loads them: for each cluster `c` of the
chain the single sector `first_data_sector + c - 2`, cut at `size` bytes. -/
def file_bytes_loaded (pvolume : volume_t) (chain : List Nat) (size : Nat) : List Nat :=
  (chain.flatMap (fun c => sectors_at pvolume.disk (pvolume.first_data_sector + c - 2) 1)).take
    size

/-- The handle that `file_open` returns for the file `A` of `vol_c`. -/
def handle_c_a : file_t :=
  { name := [65, 32, 32, 32, 32, 32, 32, 32], extension := [32, 32, 32], size := 4,
    starting_cluster := 3, cluster_chain := [3], number_of_clusters := 1,
    data := List.replicate 512 2 ++ zeros 5, current_position := 0 }

/-- A field of the query in the words of the specification: the bytes truncated to
the width `w`, padded to that width, every non-alphabetic byte replaced by a
space. -/
def pad_field (w : Nat) (t : List Nat) : List Nat :=
  ((t ++ List.replicate w 32).take w).map (fun c => if isalpha c then c else 32)

/-- The query in the words of the specification: NAME from the bytes before the
first `.` of the input, EXT from the bytes after that first `.`. -/
def query_claimed (file_name : List Nat) : List Nat × List Nat :=
  (pad_field 8 ((cstr file_name).takeWhile (fun c => c != 46)),
   pad_field 3 (((cstr file_name).dropWhile (fun c => c != 46)).drop 1))

/-! ## Machine integer facts -/

theorem to_uint32_of_nonneg (x : Int) (h0 : 0 ≤ x) (h1 : x < 4294967296) :
    to_uint32 x = x.toNat := by
  unfold to_uint32; congr 1; omega

theorem to_uint32_of_neg (x : Int) (h0 : -2147483648 ≤ x) (h1 : x < 0) :
    2147483648 ≤ to_uint32 x := by
  unfold to_uint32; omega

theorem to_int32_of_small (x : Int) (h0 : -2147483648 ≤ x) (h1 : x < 2147483648) :
    to_int32 x = x := by
  unfold to_int32; omega

theorem seek_target (stream : file_t) (x : Int) (hsize : stream.size < 2147483648)
    (h0 : -2147483648 ≤ x) (h1 : x < 4294967296) :
    (if to_uint32 x > stream.size then
      ({ ret := -1, errno := some Errno.ENXIO, stream := stream } : seek_result)
    else
      { ret := to_int32 (to_uint32 x), errno := none,
        stream := { stream with current_position := to_uint32 x } })
    = if 0 ≤ x ∧ x ≤ stream.size then
        { ret := x, errno := none, stream := { stream with current_position := x.toNat } }
      else { ret := -1, errno := some Errno.ENXIO, stream := stream } := by
  by_cases hx : 0 ≤ x
  · have e := to_uint32_of_nonneg x hx h1
    rw [e]
    by_cases hle : x ≤ stream.size
    · have : ¬ (x.toNat > stream.size) := by omega
      have e2 : to_int32 (x.toNat : Int) = x := by
        rw [to_int32_of_small] <;> omega
      have e3 : to_int32 x = x := to_int32_of_small x h0 (by omega)
      simp [this, hx, hle, e2, e3]
    · have : x.toNat > stream.size := by omega
      simp [this, hle]
  · have := to_uint32_of_neg x h0 (by omega)
    have h3 : to_uint32 x > stream.size := by omega
    simp [h3, hx]

/-- C3 (amended): for a handle whose size is at most `0x7FFFFFFF`, with the cursor
inside the file and a 32-bit signed offset, `file_seek` with `SEEK_SET`, `SEEK_CUR`
or `SEEK_END` succeeds exactly when `base + offset` lies in `[0, size]`, then sets
the cursor to that value and returns it; otherwise it returns -1 with `ENXIO` and
leaves the stream unchanged; any other `whence` returns -1 with `EINVAL` and leaves
the stream unchanged. -/
theorem file_seek_in_range (stream : file_t) (offset whence : Int)
    (hsize : stream.size < 2147483648)
    (hcur : stream.current_position ≤ stream.size)
    (hoff : -2147483648 ≤ offset ∧ offset < 2147483648) :
    (whence = 0 ∨ whence = 1 ∨ whence = 2 →
      (0 ≤ seek_base stream whence + offset ∧ seek_base stream whence + offset ≤ stream.size →
        file_seek stream offset whence =
          { ret := seek_base stream whence + offset, errno := none,
            stream := { stream with
              current_position := (seek_base stream whence + offset).toNat } }) ∧
      (¬ (0 ≤ seek_base stream whence + offset ∧ seek_base stream whence + offset ≤ stream.size) →
        file_seek stream offset whence =
          { ret := -1, errno := some Errno.ENXIO, stream := stream })) ∧
    (whence ≠ 0 ∧ whence ≠ 1 ∧ whence ≠ 2 →
      file_seek stream offset whence =
        { ret := -1, errno := some Errno.EINVAL, stream := stream }) := by
  refine ⟨?_, ?_⟩
  · intro hw
    have key : file_seek stream offset whence =
        if 0 ≤ seek_base stream whence + offset ∧ seek_base stream whence + offset ≤ stream.size
        then { ret := seek_base stream whence + offset, errno := none,
               stream := { stream with
                 current_position := (seek_base stream whence + offset).toNat } }
        else { ret := -1, errno := some Errno.ENXIO, stream := stream } := by
      rcases hw with hw | hw | hw
      · subst hw
        have := seek_target stream offset hsize hoff.1 (by omega)
        simpa [file_seek, seek_base] using this
      · subst hw
        have := seek_target stream (stream.current_position + offset) hsize (by omega) (by omega)
        simpa [file_seek, seek_base] using this
      · subst hw
        have := seek_target stream (stream.size + offset) hsize (by omega) (by omega)
        simpa [file_seek, seek_base] using this
    constructor
    · intro h; rw [key, if_pos h]
    · intro h; rw [key, if_neg h]
  · rintro ⟨h0, h1, h2⟩
    simp [file_seek, h0, h1, h2]

/-- C3, an instance: seeking two bytes back from position 3 of a 7-byte file. -/
theorem file_seek_in_range_witness :
    file_seek small_handle (-2) 1 =
      { ret := 1, errno := none, stream := { small_handle with current_position := 1 } } :=
  ((file_seek_in_range small_handle (-2) 1 (by decide) (by decide) (by decide)).1
      (Or.inr (Or.inl rfl))).1 (by decide)

/-- C3 as stated fails: on a file of `2^31` bytes, `SEEK_SET` with offset `-2^31`
targets a negative position, yet the call succeeds, moves the cursor to `2^31` and
returns `-2^31`. -/
theorem file_seek_wraps :
    ¬ (0 ≤ seek_base huge_handle 0 + (-2147483648)) ∧
    (file_seek huge_handle (-2147483648) 0).ret = -2147483648 ∧
    (file_seek huge_handle (-2147483648) 0).errno = none ∧
    (file_seek huge_handle (-2147483648) 0).stream.current_position = 2147483648 := by
  decide

/-! ## Buffers -/

theorem zeros_length (n : Nat) : (zeros n).length = n := by
  simp [zeros]

theorem memcpy_at_length (dst : List Nat) (off : Nat) (src : List Nat)
    (h : off + src.length ≤ dst.length) : (memcpy_at dst off src).length = dst.length := by
  simp [memcpy_at]; omega

theorem memcpy_at_nil (dst : List Nat) (off : Nat) : memcpy_at dst off [] = dst := by
  simp [memcpy_at]

theorem memcpy_at_set (out : List Nat) (i c : Nat) (w : List Nat)
    (h : i + (w.length + 1) ≤ out.length) :
    memcpy_at (out.set i c) (i + 1) w = memcpy_at out i (c :: w) := by
  unfold memcpy_at
  have hi : i < out.length := by omega
  rw [List.drop_set_of_lt c out (by omega : i < i + 1 + w.length)]
  rw [List.set_eq_take_append_cons_drop, if_pos hi]
  have : (List.take i out ++ c :: List.drop (i + 1) out).take (i + 1) = List.take i out ++ [c] := by
    rw [List.take_append_eq_append_take]
    simp [List.length_take, Nat.min_eq_left (Nat.le_of_lt hi)]
  rw [this]
  have e : i + 1 + w.length = i + (w.length + 1) := by omega
  simp [e]

/-! ## `file_read` -/

theorem file_read_loop_eq (stream_size : Nat) (data : List Nat) :
    ∀ (r i : Nat) (out : List Nat) (rb : Int) (pos : Nat),
      pos ≤ stream_size → stream_size < 4294967296 →
      pos + min r (stream_size - pos) ≤ data.length →
      i + min r (stream_size - pos) ≤ out.length →
      file_read_loop stream_size data r i out rb pos =
        (memcpy_at out i ((data.drop pos).take (min r (stream_size - pos))),
         (if min r (stream_size - pos) = 0 then rb
          else to_int32 (rb + (min r (stream_size - pos) : Nat))),
         pos + min r (stream_size - pos)) := by
  intro r
  induction r with
  | zero =>
    intro i out rb pos _ _ _ _
    simp [file_read_loop, memcpy_at_nil]
  | succ r ih =>
    intro i out rb pos hpos h32 hdata hout
    unfold file_read_loop
    by_cases hlt : pos < stream_size
    · rw [if_pos hlt]
      have hmod : (pos + 1) % 4294967296 = pos + 1 := Nat.mod_eq_of_lt (by omega)
      rw [hmod]
      have hmin : min (r + 1) (stream_size - pos) = min r (stream_size - (pos + 1)) + 1 := by
        omega
      rw [hmin] at hdata hout ⊢
      rw [ih (i + 1) _ _ (pos + 1) (by omega) h32 (by omega) (by simp; omega)]
      have hp : pos < data.length := by omega
      have hd : (data.drop pos).take (min r (stream_size - (pos + 1)) + 1) =
          data.getD pos 0 :: (data.drop (pos + 1)).take (min r (stream_size - (pos + 1))) := by
        rw [List.drop_eq_getElem_cons hp, List.take_succ_cons]
        simp [List.getD_eq_getElem?_getD, List.getElem?_eq_getElem hp]
      rw [hd, memcpy_at_set _ _ _ _ (by simp [List.length_take]; omega)]
      refine Prod.ext rfl (Prod.ext ?_ ?_)
      · simp only []
        by_cases h0 : min r (stream_size - (pos + 1)) = 0
        · simp [h0]
        · simp only [h0, if_false, Nat.succ_ne_zero]
          unfold to_int32
          push_cast
          omega
      · simp only []
        omega
    · rw [if_neg hlt]
      have : min (r + 1) (stream_size - pos) = 0 := by omega
      simp [this, memcpy_at_nil]
theorem to_size_t_to_int32 (b : Nat) (hb : b < 2147483648) :
    to_size_t (to_int32 (b : Int)) = b := by
  rw [to_int32_of_small _ (by omega) (by omega)]
  unfold to_size_t
  have : (b : Int) % 18446744073709551616 = b := Int.emod_eq_of_lt (by omega) (by omega)
  rw [this]; rfl

/-- C2 (amended): when the product `size * nmemb` fits a `size_t` and the number
of bytes to produce, `b = min (size * nmemb) (stream.size - cursor)`, fits an
`int`, `file_read` copies exactly the `b` payload bytes at the cursor to the start
of the destination, advances the cursor by `b` and returns `b / size`; `b` never
exceeds `stream.size - cursor`. -/
theorem file_read_spec (ptr : List Nat) (size nmemb : Nat) (stream : file_t)
    (hcur : stream.current_position ≤ stream.size)
    (h32 : stream.size < 4294967296)
    (hdata : stream.size ≤ stream.data.length)
    (hs : 1 ≤ size)
    (hprod : size * nmemb < 18446744073709551616)
    (hb : read_count size nmemb stream < 2147483648)
    (hptr : read_count size nmemb stream ≤ ptr.length) :
    file_read ptr size nmemb stream =
      { ret := read_count size nmemb stream / size,
        ptr := (stream.data.drop stream.current_position).take (read_count size nmemb stream)
          ++ ptr.drop (read_count size nmemb stream),
        stream := { stream with
          current_position := stream.current_position + read_count size nmemb stream } } ∧
    read_count size nmemb stream ≤ stream.size - stream.current_position ∧
    1 ≤ size := by
  refine ⟨?_, Nat.min_le_right _ _, hs⟩
  unfold read_count at *
  unfold file_read
  rw [Nat.mod_eq_of_lt hprod]
  rw [file_read_loop_eq stream.size stream.data (size * nmemb) 0 ptr 0 stream.current_position
    hcur h32 (by omega) (by omega)]
  generalize hbdef : min (size * nmemb) (stream.size - stream.current_position) = b at *
  have hlen : ((stream.data.drop stream.current_position).take b).length = b := by
    rw [List.length_take, List.length_drop]; omega
  have hret : to_size_t (if b = 0 then 0 else to_int32 (0 + (b : Nat))) = b := by
    by_cases h0 : b = 0
    · subst h0; rfl
    · rw [if_neg h0, Int.zero_add]; exact to_size_t_to_int32 b hb
  simp only [hret]
  simp only [memcpy_at, hlen, List.take_zero, List.nil_append, Nat.zero_add]

/-- C2, an instance: 16 one-byte elements requested with 4 bytes left. -/
theorem file_read_spec_witness :
    file_read (zeros 16) 1 16 small_handle =
      { ret := 4, ptr := [76, 79, 13, 10] ++ zeros 12,
        stream := { small_handle with current_position := 7 } } :=
  (file_read_spec (zeros 16) 1 16 small_handle (by decide) (by decide)
    (by simp [small_handle, zeros_length]) (by decide) (by decide) (by decide) (by decide)).1

/-- C2 as stated fails: with element size `2^63` and count 2 the claim asks for
`min (2^64) 4 = 4` bytes, but the `size_t` product is 0 and nothing is copied. -/
theorem file_read_product_wraps :
    read_count 9223372036854775808 2 small_handle = 4 ∧
    (file_read (zeros 4) 9223372036854775808 2 small_handle).ptr = zeros 4 ∧
    (file_read (zeros 4) 9223372036854775808 2 small_handle).stream.current_position = 3 := by
  decide

/-! ## `dir_read` -/

theorem dir_read_entry (d : dir_t) (out : List Nat) (k : Nat)
    (hn : d.nr_of_files = d.files.length) (hint : d.files.length < 2147483648)
    (hent : ∀ e ∈ d.files, e.length = 32) (hout : out.length = 32)
    (hk : k < d.files.length) :
    dir_read { d with current := k } out =
      some { ret := 0, pdir := { d with current := ((k + 1 : Nat) : Int) },
             pentry := d.files.getD k [] } := by
  have hlt : k < d.files.length := hk
  have hmem : d.files[k] ∈ d.files := List.getElem_mem hlt
  have hlen := hent _ hmem
  unfold dir_read
  have h1 : ¬ ((k : Int) = d.nr_of_files) := by rw [hn]; omega
  have h2 : ¬ ((k : Int) < 0) := by omega
  simp only [h1, h2, if_false, Int.toNat_ofNat, List.get?_eq_getElem?,
    List.getElem?_eq_getElem hlt]
  have h3 : to_int32 ((k : Int) + 1) = ((k + 1 : Nat) : Int) := by
    rw [to_int32_of_small] <;> push_cast <;> omega
  have h4 : memcpy_at out 0 d.files[k] = d.files[k] := by
    simp [memcpy_at, hlen, hout]
  simp [h3, h4, List.getD_eq_getElem?_getD, List.getElem?_eq_getElem hlt]

theorem dir_read_end (d : dir_t) (out : List Nat) (hn : d.nr_of_files = d.current) :
    dir_read d out = some { ret := 1, pdir := d, pentry := out } := by
  simp [dir_read, hn]

theorem dir_read_iter_state (d : dir_t) (out : List Nat)
    (hcur : d.current = 0) (hn : d.nr_of_files = d.files.length)
    (hint : d.files.length < 2147483648)
    (hent : ∀ e ∈ d.files, e.length = 32) (hout : out.length = 32) :
    ∀ k, ∃ ek, ek.length = 32 ∧
      dir_read_iter k d out =
        some ({ d with current := ((min k d.files.length : Nat) : Int) }, ek) := by
  intro k
  induction k with
  | zero =>
    refine ⟨out, hout, ?_⟩
    simp [dir_read_iter, ← hcur]
  | succ k ih =>
    obtain ⟨ek, hek, hst⟩ := ih
    by_cases hk : k < d.files.length
    · have hmin : min k d.files.length = k := by omega
      have hmin1 : min (k + 1) d.files.length = k + 1 := by omega
      rw [hmin] at hst
      refine ⟨d.files.getD k [], ?_, ?_⟩
      · rw [List.getD_eq_getElem?_getD, List.getElem?_eq_getElem hk]
        exact hent _ (List.getElem_mem hk)
      · simp only [dir_read_iter, hst, hmin1]
        rw [dir_read_entry d ek k hn hint hent hek hk]
    · have hmin : min k d.files.length = d.files.length := by omega
      have hmin1 : min (k + 1) d.files.length = d.files.length := by omega
      rw [hmin] at hst
      refine ⟨ek, hek, ?_⟩
      simp only [dir_read_iter, hst, hmin1]
      rw [dir_read_end _ ek (by simp [hn])]

/-- C7: on a snapshot with `n` entries and its cursor at 0, after any number `k`
of `dir_read` calls the next call returns 0, stores entry `k` in `*pentry` and
moves the cursor to `k + 1` when `k < n`, and returns 1 leaving `*pentry` and the
snapshot unchanged when `n ≤ k`; on an empty snapshot the first call returns 1. -/
theorem dir_read_sequence (d : dir_t) (out : List Nat) (k : Nat)
    (hcur : d.current = 0) (hn : d.nr_of_files = d.files.length)
    (hint : d.files.length < 2147483648)
    (hent : ∀ e ∈ d.files, e.length = 32) (hout : out.length = 32) :
    ∃ dk ek, dir_read_iter k d out = some (dk, ek) ∧
      (k < d.files.length →
        dir_read dk ek = some { ret := 0, pdir := { d with current := ((k + 1 : Nat) : Int) },
                                pentry := d.files.getD k [] }) ∧
      (d.files.length ≤ k →
        dir_read dk ek = some { ret := 1, pdir := dk, pentry := ek }) ∧
      (d.files.length = 0 → dir_read d out = some { ret := 1, pdir := d, pentry := out }) := by
  obtain ⟨ek, hek, hst⟩ := dir_read_iter_state d out hcur hn hint hent hout k
  refine ⟨_, ek, hst, ?_, ?_, ?_⟩
  · intro hk
    have hmin : min k d.files.length = k := by omega
    rw [hmin]
    exact dir_read_entry d ek k hn hint hent hek hk
  · intro hk
    have hmin : min k d.files.length = d.files.length := by omega
    rw [hmin]
    exact dir_read_end _ ek (by simp [hn])
  · intro h0
    exact dir_read_end d out (by rw [hn, hcur, h0]; rfl)

/-- C7, an instance: on a snapshot of three entries the third call returns the
third entry. -/
theorem dir_read_sequence_witness :
    ∃ dk ek, dir_read_iter 2 demo_dir (zeros 32) = some (dk, ek) ∧
      dir_read dk ek = some { ret := 0, pdir := { demo_dir with current := 3 },
                              pentry := [68] ++ zeros 31 } := by
  obtain ⟨dk, ek, h1, h2, _, _⟩ := dir_read_sequence demo_dir (zeros 32) 2 (by decide)
    (by decide) (by decide) (by decide) (by decide)
  exact ⟨dk, ek, h1, h2 (by decide)⟩

/-! ## `remove_spaces_from_name` -/

theorem set_eq_memcpy_at (out : List Nat) (i c : Nat) (h : i < out.length) :
    out.set i c = memcpy_at out i [c] := by
  have := memcpy_at_set out i c [] (by simpa using h)
  rw [memcpy_at_nil] at this
  exact this

theorem memcpy_at_append (out : List Nat) (i : Nat) (w v : List Nat)
    (h : i + w.length + v.length ≤ out.length) :
    memcpy_at (memcpy_at out i w) (i + w.length) v = memcpy_at out i (w ++ v) := by
  unfold memcpy_at
  have h1 : (List.take i out ++ w).length = i + w.length := by
    simp [List.length_take]; omega
  have e1 : List.take (i + w.length) (List.take i out ++ w ++ List.drop (i + w.length) out)
      = List.take i out ++ w := List.take_left' h1
  have e2 : List.drop (i + w.length + v.length)
      (List.take i out ++ w ++ List.drop (i + w.length) out)
      = List.drop (i + (w ++ v).length) out := by
    rw [List.drop_append_eq_append_drop]
    have : List.drop (i + w.length + v.length) (List.take i out ++ w) = [] :=
      List.drop_eq_nil_of_le (by omega)
    rw [this, h1]
    simp only [List.nil_append, List.drop_drop, List.length_append]
    congr 1; omega
  rw [e1, e2]
  simp

theorem isalpha_ne_zero (c : Nat) (h : isalpha c = true) : c ≠ 0 := by
  intro h0; subst h0; simp [isalpha] at h

theorem name_run_eq : ∀ (l : List Nat) (i : Nat) (out : List Nat),
    i + (l.takeWhile isalpha).length ≤ out.length →
    name_run l i out =
      (i + (l.takeWhile isalpha).length, memcpy_at out i (l.takeWhile isalpha)) := by
  intro l
  induction l with
  | nil => intro i out _; simp [name_run, memcpy_at_nil]
  | cons c cs ih =>
    intro i out h
    unfold name_run
    by_cases hc : isalpha c = true
    · have hne := isalpha_ne_zero c hc
      simp only [List.takeWhile_cons, hc, if_true, List.length_cons] at h ⊢
      rw [if_pos ⟨hne, trivial⟩, ih (i + 1) _ (by rw [List.length_set]; omega)]
      rw [memcpy_at_set _ _ _ _ (by omega)]
      congr 1; omega
    · have : ¬ (c ≠ 0 ∧ isalpha c = true) := fun hh => hc hh.2
      rw [if_neg this]
      simp [List.takeWhile_cons, hc, memcpy_at_nil]

theorem name_run8_eq : ∀ (l : List Nat) (n i : Nat) (out : List Nat), i + n = 8 →
    i + ((l.take n).takeWhile isalpha).length ≤ out.length →
    name_run8 l i out =
      (i + ((l.take n).takeWhile isalpha).length,
       memcpy_at out i ((l.take n).takeWhile isalpha)) := by
  intro l
  induction l with
  | nil => intro n i out _ _; simp [name_run8, memcpy_at_nil]
  | cons c cs ih =>
    intro n i out hi h
    unfold name_run8
    cases n with
    | zero =>
      have hn : ¬ (c ≠ 0 ∧ isalpha c = true ∧ i < 8) := fun hh => by omega
      rw [if_neg hn]
      simp [memcpy_at_nil]
    | succ n =>
      by_cases hc : isalpha c = true
      · have hne := isalpha_ne_zero c hc
        simp only [List.take_succ_cons, List.takeWhile_cons, hc, if_true,
          List.length_cons] at h ⊢
        rw [if_pos ⟨hne, trivial, by omega⟩,
          ih n (i + 1) _ (by omega) (by rw [List.length_set]; omega)]
        rw [memcpy_at_set _ _ _ _ (by omega)]
        congr 1; omega
      · have hn : ¬ (c ≠ 0 ∧ isalpha c = true ∧ i < 8) := fun hh => hc hh.2.1
        rw [if_neg hn]
        simp [List.takeWhile_cons, hc, memcpy_at_nil]

theorem ext_copy_eq : ∀ (l : List Nat) (r i : Nat) (out : List Nat),
    i + (l.take r).length ≤ out.length →
    ext_copy l r i out = (i + (l.take r).length, memcpy_at out i (l.take r)) := by
  intro l
  induction l with
  | nil =>
    intro r i out _
    cases r <;> simp [ext_copy, memcpy_at_nil]
  | cons c cs ih =>
    intro r i out h
    cases r with
    | zero => simp [ext_copy, memcpy_at_nil]
    | succ r =>
      simp only [List.take_succ_cons, List.length_cons] at h ⊢
      unfold ext_copy
      rw [ih r (i + 1) _ (by rw [List.length_set]; omega), memcpy_at_set _ _ _ _ (by omega)]
      congr 1; omega

theorem takeWhile_take_of_stop (p : Nat → Bool) : ∀ (l : List Nat) (n : Nat),
    p (l.getD n 0) = false → n < l.length →
    l.takeWhile p = (l.take n).takeWhile p := by
  intro l
  induction l with
  | nil => intro n _ h; simp at h
  | cons c cs ih =>
    intro n hp hn
    cases n with
    | zero =>
      simp at hp
      simp [List.takeWhile_cons, hp]
    | succ n =>
      simp only [List.take_succ_cons, List.takeWhile_cons]
      have hp' : p (cs.getD n 0) = false := by simpa using hp
      rw [ih n hp' (by simpa using hn)]

theorem cstr_terminated (x rest : List Nat) : cstr (x ++ 0 :: rest) = cstr x := by
  unfold cstr
  induction x with
  | nil => simp
  | cons c cs ih =>
    simp only [List.cons_append, List.takeWhile_cons]
    split
    · rw [ih]
    · rfl
theorem filter_eq_take_countP (ext : List Nat) (h3 : ext.length = 3)
    (hall : ∀ c ∈ ext.take (ext.countP isalpha), isalpha c = true) :
    ext.filter isalpha = ext.take (ext.countP isalpha) := by
  match ext, h3 with
  | [a, b, c], _ =>
    cases ha : isalpha a <;> cases hb : isalpha b <;> cases hc : isalpha c <;>
      simp [List.countP_cons, List.filter_cons, ha, hb, hc] at hall ⊢

theorem write_then_write (out w v : List Nat) (h : w.length + v.length ≤ out.length) :
    memcpy_at (memcpy_at out 0 w) w.length v = memcpy_at out 0 (w ++ v) := by
  have := memcpy_at_append out 0 w v (by omega)
  simpa using this

theorem write_then_set (out w : List Nat) (c : Nat) (h : w.length < out.length) :
    (memcpy_at out 0 w).set w.length c = memcpy_at out 0 (w ++ [c]) := by
  rw [set_eq_memcpy_at _ _ _ (by rw [memcpy_at_length _ _ _ (by omega)]; exact h)]
  exact write_then_write out w [c] (by simpa using h)

/-- C8 (amended): `remove_spaces_from_name` stores in `out->name`, followed by a
NUL, the leading letters of the 8-byte name and, when `extension[0]` is not a
space, a dot and the first `k` bytes of the extension, where `k` is the number of
letters among the three extension bytes; the resulting C string ends at the first
NUL.  When those `k` bytes are all letters this is the name of the claim (the
letters of the extension in order). -/
theorem remove_spaces_from_name_spec (dir out : List Nat)
    (hd : dir.length = 32) (ho : out.length = 32) :
    remove_spaces_from_name dir out = memcpy_at out 0 (normalized_bytes dir ++ [0]) ∧
    cstr (remove_spaces_from_name dir out) = cstr (normalized_bytes dir) ∧
    ((∀ c ∈ (entry_extension dir).take ((entry_extension dir).countP isalpha),
        isalpha c = true) →
      normalized_bytes dir = normalized_name_claimed dir) := by
  have hname : ((entry_name dir).takeWhile isalpha).length ≤ 8 := by
    refine le_trans (List.Sublist.length_le (List.takeWhile_sublist _)) ?_
    simp [entry_name, List.length_take]
  have hext : (entry_extension dir).length = 3 := by
    simp [entry_extension, List.length_take, List.length_drop, hd]
  have hk : ((entry_extension dir).take ((entry_extension dir).countP isalpha)).length ≤ 3 := by
    rw [List.length_take]; omega
  have hbuf : remove_spaces_from_name dir out =
      memcpy_at out 0 (normalized_bytes dir ++ [0]) := by
    unfold remove_spaces_from_name normalized_bytes
    by_cases h8 : dir.getD 8 0 = 32
    · rw [if_pos h8, if_pos h8]
      have hrun : dir.takeWhile isalpha = (entry_name dir).takeWhile isalpha := by
        unfold entry_name
        exact takeWhile_take_of_stop isalpha dir 8 (by rw [h8]; decide) (by omega)
      have hr := name_run_eq dir 0 out (by rw [hrun]; omega)
      rw [hrun] at hr
      rw [hr]
      simp only [Nat.zero_add]
      exact write_then_set out _ 0 (by omega)
    · rw [if_neg h8, if_neg h8]
      have hr := name_run8_eq dir 8 0 out rfl
        (by show 0 + ((entry_name dir).takeWhile isalpha).length ≤ out.length; omega)
      have hr2 : name_run8 dir 0 out = (((entry_name dir).takeWhile isalpha).length,
          memcpy_at out 0 ((entry_name dir).takeWhile isalpha)) := by
        rw [hr]; simp [entry_name]
      rw [hr2]
      simp only []
      rw [write_then_set out _ 46 (by omega)]
      have htk : (dir.drop 8).take (((dir.drop 8).take 3).countP isalpha) =
          (entry_extension dir).take ((entry_extension dir).countP isalpha) := by
        unfold entry_extension
        rw [List.take_take]
        congr 1
        have h1 : ((dir.drop 8).take 3).countP isalpha ≤ ((dir.drop 8).take 3).length :=
          List.countP_le_length _
        have h3 : ((dir.drop 8).take 3).length = 3 := hext
        omega
      have hl2 : ((entry_name dir).takeWhile isalpha ++ [46]).length =
          ((entry_name dir).takeWhile isalpha).length + 1 := by simp
      have hl3 : (memcpy_at out 0 ((entry_name dir).takeWhile isalpha ++ [46])).length = 32 := by
        rw [memcpy_at_length _ _ _ (by omega)]; exact ho
      have hc := ext_copy_eq (dir.drop 8) (((dir.drop 8).take 3).countP isalpha)
        (((entry_name dir).takeWhile isalpha).length + 1)
        (memcpy_at out 0 ((entry_name dir).takeWhile isalpha ++ [46]))
        (by rw [htk, hl3]; omega)
      rw [hc, htk]
      simp only []
      rw [← hl2, write_then_write out _ _ (by omega)]
      have hl4 : ((entry_name dir).takeWhile isalpha ++ [46] ++
          (entry_extension dir).take ((entry_extension dir).countP isalpha)).length =
          ((entry_name dir).takeWhile isalpha ++ [46]).length +
          ((entry_extension dir).take ((entry_extension dir).countP isalpha)).length :=
        List.length_append _ _
      rw [← hl4]
      exact write_then_set out _ 0 (by rw [hl4]; omega)
  refine ⟨hbuf, ?_, ?_⟩
  · rw [hbuf]
    simp only [memcpy_at, List.take_zero, List.nil_append, List.append_assoc,
      List.singleton_append]
    exact cstr_terminated _ _
  · intro hall
    unfold normalized_bytes normalized_name_claimed
    rw [filter_eq_take_countP _ hext hall]

/-- C8, an instance: `README  TXT` is listed as `README.TXT`. -/
theorem remove_spaces_from_name_spec_witness :
    cstr (remove_spaces_from_name entry_readme (zeros 32)) =
      [82, 69, 65, 68, 77, 69, 46, 84, 88, 84] :=
  (remove_spaces_from_name_spec entry_readme (zeros 32) (by decide) (by decide)).2.1.trans
    (by decide)

/-- C8 as stated fails: for name `AB` and extension `A1B` the code yields `AB.A1`
(the first two extension bytes), the claim `AB.AB` (the two letters). -/
theorem remove_spaces_keeps_leading_bytes :
    cstr (remove_spaces_from_name entry_ab_a1b (zeros 32)) = [65, 66, 46, 65, 49] ∧
    normalized_name_claimed entry_ab_a1b = [65, 66, 46, 65, 66] := by
  decide

/-! ## `disk_read` and `fat_open` -/

theorem byte_at_lt (b : List Nat) (off : Nat) : byte_at b off < 256 :=
  Nat.mod_lt _ (by decide)

theorem le16_lt (b : List Nat) (off : Nat) : le16 b off < 65536 := by
  have h1 := byte_at_lt b off
  have h2 := byte_at_lt b (off + 1)
  unfold le16; omega

theorem le32_lt (b : List Nat) (off : Nat) : le32 b off < 4294967296 := by
  have h1 := byte_at_lt b off
  have h2 := byte_at_lt b (off + 1)
  have h3 := byte_at_lt b (off + 2)
  have h4 := byte_at_lt b (off + 3)
  unfold le32; omega

theorem memcpy_at_nil_buffer (src : List Nat) : memcpy_at [] 0 src = src := by
  simp [memcpy_at]

theorem to_size_t_of_small (n : Nat) (hn : n < 65536) : to_size_t (n : Int) = n := by
  unfold to_size_t
  have : (n : Int) % 18446744073709551616 = n := Int.emod_eq_of_lt (by omega) (by omega)
  rw [this]; rfl

/-- `disk_read` for a sector number below `2^22` and a sector count below `2^16`,
where neither the sum nor the byte offset wraps. -/
theorem disk_read_eq (pdisk buffer : List Nat) (first n : Nat)
    (hf : first < 4194304) (hn : n < 65536) :
    disk_read pdisk (first : Int) buffer (n : Int) =
      if to_int32 pdisk.length < 0 then
        { ret := -1, errno := some Errno.EIO, buffer := buffer }
      else if ((first + n : Nat) : Int) > to_int32 pdisk.length / 512 then
        { ret := -1, errno := some Errno.ERANGE, buffer := buffer }
      else if to_int32 (((sectors_at pdisk first n).length : Int) / 512) ≠ (n : Int) then
        { ret := -1, errno := some Errno.EIO,
          buffer := memcpy_at buffer 0 (sectors_at pdisk first n) }
      else { ret := n, errno := none,
             buffer := memcpy_at buffer 0 (sectors_at pdisk first n) } := by
  unfold disk_read
  simp only []
  have hoff : to_int32 ((first : Int) * 512) = ((first * 512 : Nat) : Int) := by
    rw [to_int32_of_small] <;> push_cast <;> omega
  have hsum : to_int32 ((first : Int) + (n : Int)) = ((first + n : Nat) : Int) := by
    rw [to_int32_of_small] <;> push_cast <;> omega
  have hpos : ¬ (((first * 512 : Nat) : Int) < 0) := by omega
  rw [hoff, hsum, to_size_t_of_small n hn, if_neg hpos, Int.toNat_ofNat]
  have hsec : (List.drop (first * 512) pdisk).take (512 * n) = sectors_at pdisk first n := by
    unfold sectors_at; rw [Nat.mul_comm first 512]
  rw [hsec]

/-- A read of `n < 2^16` sectors at sector `first < 2^22` that returns `n`
has stored exactly those sectors of the image at the start of the buffer. -/
theorem disk_read_success (pdisk buffer : List Nat) (first n : Nat)
    (hf : first < 4194304) (hn : n < 65536)
    (h : (disk_read pdisk (first : Int) buffer (n : Int)).ret = n) :
    (disk_read pdisk (first : Int) buffer (n : Int)).buffer =
      memcpy_at buffer 0 (sectors_at pdisk first n) ∧
    (sectors_at pdisk first n).length = 512 * n := by
  rw [disk_read_eq pdisk buffer first n hf hn] at h ⊢
  by_cases h1 : to_int32 pdisk.length < 0
  · rw [if_pos h1] at h; exfalso; simp only [] at h; omega
  · rw [if_neg h1] at h ⊢
    by_cases h2 : ((first + n : Nat) : Int) > to_int32 pdisk.length / 512
    · rw [if_pos h2] at h; exfalso; simp only [] at h; omega
    · rw [if_neg h2] at h ⊢
      by_cases h3 : to_int32 (((sectors_at pdisk first n).length : Int) / 512) ≠ (n : Int)
      · rw [if_pos h3] at h; exfalso; simp only [] at h; omega
      · rw [if_neg h3]
        refine ⟨rfl, ?_⟩
        have hle : (sectors_at pdisk first n).length ≤ 512 * n := by
          unfold sectors_at; rw [List.length_take]; exact Nat.min_le_left _ _
        have hq : to_int32 (((sectors_at pdisk first n).length : Int) / 512) = n :=
          not_not.mp h3
        rw [to_int32_of_small _ (by omega) (by omega)] at hq
        omega

/-- A read that lies inside an image of less than `2^31` bytes succeeds. -/
theorem disk_read_in_range (pdisk buffer : List Nat) (first n : Nat)
    (hf : first < 4194304) (hn : n < 65536)
    (hlen : pdisk.length < 2147483648) (hin : (first + n) * 512 ≤ pdisk.length) :
    disk_read pdisk (first : Int) buffer (n : Int) =
      { ret := n, errno := none, buffer := memcpy_at buffer 0 (sectors_at pdisk first n) } := by
  rw [disk_read_eq pdisk buffer first n hf hn]
  have hl : to_int32 (pdisk.length : Int) = pdisk.length :=
    to_int32_of_small _ (by omega) (by omega)
  have h1 : ¬ (to_int32 (pdisk.length : Int) < 0) := by rw [hl]; omega
  have h2 : ¬ (((first + n : Nat) : Int) > to_int32 pdisk.length / 512) := by
    rw [hl]; omega
  have hlen2 : (sectors_at pdisk first n).length = 512 * n := by
    unfold sectors_at; rw [List.length_take, List.length_drop]; omega
  have h3 : ¬ (to_int32 (((sectors_at pdisk first n).length : Int) / 512) ≠ (n : Int)) := by
    rw [hlen2, to_int32_of_small _ (by omega) (by omega)]
    omega
  rw [if_neg h1, if_neg h2, if_neg h3]

theorem to_uint16_of_small (n : Nat) (hn : n < 65536) : to_uint16 (n : Int) = n := by
  unfold to_uint16
  have : (n : Int) % 65536 = n := Int.emod_eq_of_lt (by omega) (by omega)
  rw [this]; rfl

theorem to_uint32_of_nat (n : Nat) (hn : n < 4294967296) : to_uint32 (n : Int) = n := by
  rw [to_uint32_of_nonneg _ (by omega) (by omega)]; rfl

/-- What a successful `fat_open_load` has done: both FAT reads returned
`sectors_per_fat`, the two buffers agree on `fat_size` bytes, and the result is
the volume with the first buffer as its FAT. -/
theorem fat_open_load_ok (pdisk : List Nat) (vol v : volume_t)
    (h : fat_open_load pdisk vol = Result.ok v) :
    (disk_read pdisk vol.first_fat_sector [] vol.super.sectors_per_fat).ret
      = vol.super.sectors_per_fat ∧
    (disk_read pdisk (vol.first_fat_sector + vol.super.sectors_per_fat) []
      vol.super.sectors_per_fat).ret = vol.super.sectors_per_fat ∧
    (disk_read pdisk vol.first_fat_sector [] vol.super.sectors_per_fat).buffer.take vol.fat_size
      = (disk_read pdisk (vol.first_fat_sector + vol.super.sectors_per_fat) []
          vol.super.sectors_per_fat).buffer.take vol.fat_size ∧
    v = { vol with
      fat := (disk_read pdisk vol.first_fat_sector [] vol.super.sectors_per_fat).buffer } := by
  unfold fat_open_load at h
  generalize disk_read pdisk (vol.first_fat_sector : Int) []
    (vol.super.sectors_per_fat : Int) = res1 at h ⊢
  generalize disk_read pdisk ((vol.first_fat_sector : Int) + (vol.super.sectors_per_fat : Int))
    [] (vol.super.sectors_per_fat : Int) = res2 at h ⊢
  dsimp only at h
  by_cases hr1 : res1.ret = vol.super.sectors_per_fat
  swap
  · rw [if_pos hr1] at h; exact Result.noConfusion h
  rw [if_neg (not_not.mpr hr1)] at h
  by_cases hr2 : res2.ret = vol.super.sectors_per_fat
  swap
  · rw [if_pos hr2] at h; exact Result.noConfusion h
  rw [if_neg (not_not.mpr hr2)] at h
  by_cases hcmp : res1.buffer.take vol.fat_size = res2.buffer.take vol.fat_size
  swap
  · rw [if_pos hcmp] at h; exact Result.noConfusion h
  rw [if_neg (not_not.mpr hcmp)] at h
  injection h with hv
  exact ⟨hr1, hr2, hcmp, hv.symm⟩

/-- What a successful `fat_open` has done before loading the FAT. -/
theorem fat_open_ok (pdisk : List Nat) (first_sector h1 h2 : Nat) (v : volume_t)
    (hopen : fat_open pdisk first_sector h1 h2 = Result.ok v) :
    (disk_read pdisk (to_int32 first_sector) [] 1).ret = 1 ∧
    (super_of_sector (disk_read pdisk (to_int32 first_sector) [] 1).buffer).bytes_per_sector
      = 512 ∧
    fat_open_load pdisk (fat_open_geometry
      (super_of_sector (disk_read pdisk (to_int32 first_sector) [] 1).buffer) pdisk h1 h2)
      = Result.ok v := by
  unfold fat_open at hopen
  by_cases hr : (disk_read pdisk (to_int32 first_sector) [] 1).ret = 1
  swap
  · rw [if_pos hr] at hopen; exact Result.noConfusion hopen
  rw [if_neg (not_not.mpr hr)] at hopen
  by_cases hb : (super_of_sector (disk_read pdisk (to_int32 first_sector) [] 1).buffer).bytes_per_sector
      = 512
  swap
  · rw [if_pos hb] at hopen; exact Result.noConfusion hopen
  rw [if_neg (not_not.mpr hb)] at hopen
  exact ⟨hr, hb, hopen⟩

theorem fat_open_of_reads (pdisk : List Nat) (first_sector h1 h2 : Nat)
    (hr : (disk_read pdisk (to_int32 first_sector) [] 1).ret = 1)
    (hb : (super_of_sector (disk_read pdisk (to_int32 first_sector) [] 1).buffer).bytes_per_sector
      = 512) :
    fat_open pdisk first_sector h1 h2 =
      fat_open_load pdisk (fat_open_geometry
        (super_of_sector (disk_read pdisk (to_int32 first_sector) [] 1).buffer) pdisk h1 h2) := by
  unfold fat_open
  rw [if_neg (not_not.mpr hr), if_neg (not_not.mpr hb)]

theorem to_int32_zero : to_int32 ((0 : Nat) : Int) = ((0 : Nat) : Int) := by decide

theorem sectors_at_length (pdisk : List Nat) (first n : Nat)
    (h : (first + n) * 512 ≤ pdisk.length) : (sectors_at pdisk first n).length = 512 * n := by
  unfold sectors_at; rw [List.length_take, List.length_drop]; omega

/-- Reading the boot sector of an image of at least 512 and less than `2^31`
bytes. -/
theorem disk_read_boot (pdisk : List Nat) (hlen : pdisk.length < 2147483648)
    (hboot : 512 ≤ pdisk.length) :
    disk_read pdisk (to_int32 ((0 : Nat) : Int)) [] 1 =
      { ret := 1, errno := none, buffer := sectors_at pdisk 0 1 } := by
  rw [to_int32_zero]
  have := disk_read_in_range pdisk [] 0 1 (by decide) (by decide) hlen (by omega)
  rw [memcpy_at_nil_buffer] at this
  exact this

/-! ## `fat_open`: sector size and FAT comparison -/

/-- C9: whenever `disk_read` delivers the sector at `first_sector` (it returns 1)
and the little-endian 16-bit field at offset 11 of that sector is not 512,
`fat_open` returns `NULL` with `EINVAL`; for a sector number below `2^22` the
buffer decoded is exactly that sector of the image. -/
theorem fat_open_rejects_sector_size (pdisk : List Nat) (first_sector h1 h2 : Nat)
    (hread : (disk_read pdisk (to_int32 first_sector) [] 1).ret = 1)
    (hbps : le16 (disk_read pdisk (to_int32 first_sector) [] 1).buffer 11 ≠ 512) :
    fat_open pdisk first_sector h1 h2 = Result.fail (some Errno.EINVAL) ∧
    (first_sector < 4194304 →
      (disk_read pdisk (to_int32 first_sector) [] 1).buffer = sectors_at pdisk first_sector 1) := by
  constructor
  · unfold fat_open
    rw [if_neg (not_not.mpr hread)]
    have hb : (super_of_sector
        (disk_read pdisk (to_int32 first_sector) [] 1).buffer).bytes_per_sector ≠ 512 := hbps
    rw [if_pos hb]
  · intro hfs
    have e : to_int32 (first_sector : Int) = (first_sector : Int) :=
      to_int32_of_small _ (by omega) (by omega)
    rw [e] at hread ⊢
    have := (disk_read_success pdisk [] first_sector 1 hfs (by decide) hread).1
    rw [memcpy_at_nil_buffer] at this
    exact this

/-- C9, an instance: a boot sector announcing 1024 bytes per sector is rejected. -/
theorem fat_open_rejects_sector_size_witness :
    fat_open img_bps1024 0 0 0 = Result.fail (some Errno.EINVAL) :=
  (fat_open_rejects_sector_size img_bps1024 0 0 0 (by decide!) (by decide!)).1

/-- Mounting at sector 0 of an image of less than `2^31` bytes whose BPB announces
512 bytes per sector and whose first two FAT copies lie inside the image. -/
theorem fat_open_sector_zero (pdisk : List Nat) (h1 h2 : Nat)
    (hlen : pdisk.length < 2147483648) (hboot : 512 ≤ pdisk.length)
    (hbps : (bpb_of pdisk).bytes_per_sector = 512)
    (hin : ((bpb_of pdisk).reserved_sectors + 2 * (bpb_of pdisk).sectors_per_fat) * 512
      ≤ pdisk.length) :
    (fat_copy pdisk 0 ≠ fat_copy pdisk 1 →
      fat_open pdisk 0 h1 h2 = Result.fail (some Errno.EINVAL)) ∧
    (fat_copy pdisk 0 = fat_copy pdisk 1 →
      fat_open pdisk 0 h1 h2 = Result.ok
        { fat_open_geometry (bpb_of pdisk) pdisk h1 h2 with fat := fat_copy pdisk 0 }) := by
  have hboot_read := disk_read_boot pdisk hlen hboot
  have hr : (disk_read pdisk (to_int32 ((0 : Nat) : Int)) [] 1).ret = 1 := by
    rw [hboot_read]
  have hbuf : (disk_read pdisk (to_int32 ((0 : Nat) : Int)) [] 1).buffer = sectors_at pdisk 0 1 := by
    rw [hboot_read]
  have hb : (super_of_sector
      (disk_read pdisk (to_int32 ((0 : Nat) : Int)) [] 1).buffer).bytes_per_sector = 512 := by
    rw [hbuf]; exact hbps
  have hopen := fat_open_of_reads pdisk 0 h1 h2 hr hb
  rw [hbuf] at hopen
  change fat_open pdisk 0 h1 h2 =
    fat_open_load pdisk (fat_open_geometry (bpb_of pdisk) pdisk h1 h2) at hopen
  rw [hopen]
  generalize hsup : bpb_of pdisk = sup at hin hbps ⊢
  have hres : sup.reserved_sectors < 65536 := by rw [← hsup]; exact le16_lt _ _
  have hspf : sup.sectors_per_fat < 65536 := by rw [← hsup]; exact le16_lt _ _
  have hffs : (fat_open_geometry sup pdisk h1 h2).first_fat_sector = sup.reserved_sectors :=
    to_uint16_of_small _ hres
  have hfsz : (fat_open_geometry sup pdisk h1 h2).fat_size = 512 * sup.sectors_per_fat := by
    show to_uint32 ((sup.sectors_per_fat : Int) * (sup.bytes_per_sector : Int)) = _
    rw [hbps]
    have : ((sup.sectors_per_fat : Int) * ((512 : Nat) : Int)) = ((512 * sup.sectors_per_fat : Nat) : Int) := by
      push_cast; ring
    rw [this, to_uint32_of_nat _ (by omega)]
  have hsuper : (fat_open_geometry sup pdisk h1 h2).super = sup := rfl
  have hc0 : fat_copy pdisk 0 = sectors_at pdisk sup.reserved_sectors sup.sectors_per_fat := by
    unfold fat_copy; rw [hsup]; simp
  have hc1 : fat_copy pdisk 1 =
      sectors_at pdisk (sup.reserved_sectors + sup.sectors_per_fat) sup.sectors_per_fat := by
    unfold fat_copy; rw [hsup]; simp
  have hread1 := disk_read_in_range pdisk [] sup.reserved_sectors sup.sectors_per_fat
    (by omega) hspf hlen (by omega)
  have hread2 := disk_read_in_range pdisk [] (sup.reserved_sectors + sup.sectors_per_fat)
    sup.sectors_per_fat (by omega) hspf hlen (by omega)
  rw [memcpy_at_nil_buffer] at hread1 hread2
  have hl0 := sectors_at_length pdisk sup.reserved_sectors sup.sectors_per_fat (by omega)
  have hl1 := sectors_at_length pdisk (sup.reserved_sectors + sup.sectors_per_fat)
    sup.sectors_per_fat (by omega)
  unfold fat_open_load
  rw [hffs, hsuper, hfsz]
  have hcast : ((sup.reserved_sectors : Int) + (sup.sectors_per_fat : Int)) =
      ((sup.reserved_sectors + sup.sectors_per_fat : Nat) : Int) := by push_cast; rfl
  rw [hcast, hread1, hread2, hc0, hc1]
  dsimp only
  rw [if_neg (not_not.mpr rfl), if_neg (not_not.mpr rfl),
    List.take_of_length_le (by omega), List.take_of_length_le (by omega)]
  constructor
  · intro hne
    rw [if_pos hne]
  · intro heq
    rw [if_neg (not_not.mpr heq), hffs, hfsz, hsuper]

/-- C10 (amended): for an image of less than `2^31` bytes that holds a boot sector
with `bytes_per_sector = 512` at sector 0 and both FAT copies inside the image,
`fat_open` fails with `EINVAL` when the two copies differ in a byte, and returns
the volume with the first copy as its FAT when they are identical. -/
theorem fat_open_compares_fats (pdisk : List Nat) (h1 h2 : Nat)
    (hlen : pdisk.length < 2147483648) (hboot : 512 ≤ pdisk.length)
    (hbps : (bpb_of pdisk).bytes_per_sector = 512)
    (hin : ((bpb_of pdisk).reserved_sectors + 2 * (bpb_of pdisk).sectors_per_fat) * 512
      ≤ pdisk.length) :
    (fat_copy pdisk 0 ≠ fat_copy pdisk 1 →
      fat_open pdisk 0 h1 h2 = Result.fail (some Errno.EINVAL)) ∧
    (fat_copy pdisk 0 = fat_copy pdisk 1 →
      fat_open pdisk 0 h1 h2 = Result.ok
        { fat_open_geometry (bpb_of pdisk) pdisk h1 h2 with fat := fat_copy pdisk 0 }) :=
  fat_open_sector_zero pdisk h1 h2 hlen hboot hbps hin

/-- The image `img_a` mounts as `vol_a`. -/
theorem fat_open_img_a : fat_open img_a 0 0 0 = Result.ok vol_a := by
  decide!

/-- C10, an instance: the image `img_a`, whose two FAT copies are identical,
mounts. -/
theorem fat_open_compares_fats_witness :
    fat_open img_a 0 0 0 = Result.ok
      { fat_open_geometry (bpb_of img_a) img_a 0 0 with fat := fat_copy img_a 0 } :=
  have h : img_a.length < 2147483648 ∧ 512 ≤ img_a.length ∧
      (bpb_of img_a).bytes_per_sector = 512 ∧
      ((bpb_of img_a).reserved_sectors + 2 * (bpb_of img_a).sectors_per_fat) * 512
        ≤ img_a.length ∧
      fat_copy img_a 0 = fat_copy img_a 1 := by decide!
  (fat_open_compares_fats img_a 0 0 h.1 h.2.1 h.2.2.1 h.2.2.2.1).2 h.2.2.2.2

theorem bpb_sector_length (bps spc reserved fat_count root_cap spf total16 : Nat) :
    (bpb_sector bps spc reserved fat_count root_cap spf total16).length = 512 := by
  simp [bpb_sector, zeros_length]

theorem sectors_at_boot (b rest : List Nat) (hb : b.length = 512) :
    sectors_at (b ++ rest) 0 1 = b := by
  unfold sectors_at
  simp only [Nat.mul_zero, List.drop_zero, Nat.mul_one]
  exact List.take_left' hb

theorem sectors_at_zeros (b : List Nat) (N k n : Nat) (hb : b.length = 512)
    (h : 512 * (k + n) ≤ N) :
    sectors_at (b ++ zeros N) (1 + k) n = zeros (512 * n) := by
  unfold sectors_at zeros
  have e : 512 * (1 + k) = b.length + 512 * k := by omega
  rw [e, List.drop_append, List.drop_replicate, List.take_replicate]
  congr 1
  omega

/-- C10 as stated fails: `img_2gib` holds a boot sector with 512 bytes per sector
and two identical FAT copies inside the image, yet `fat_open` returns `NULL` with
`EIO`, because the image size `2^31` does not fit the `int32_t` that `disk_read`
stores it in. -/
theorem fat_open_large_image :
    (bpb_of img_2gib).bytes_per_sector = 512 ∧
    ((bpb_of img_2gib).reserved_sectors + 2 * (bpb_of img_2gib).sectors_per_fat) * 512
      ≤ img_2gib.length ∧
    fat_copy img_2gib 0 = fat_copy img_2gib 1 ∧
    fat_open img_2gib 0 0 0 = Result.fail (some Errno.EIO) := by
  have hlen : img_2gib.length = 2147483648 := by
    simp [img_2gib, bpb_sector_length, zeros_length]
  have hbpb : bpb_of img_2gib = super_of_sector (bpb_sector 512 1 1 2 16 1 0) := by
    unfold bpb_of img_2gib
    rw [sectors_at_boot _ _ (bpb_sector_length _ _ _ _ _ _ _)]
  have hsup : super_of_sector (bpb_sector 512 1 1 2 16 1 0) =
      { bytes_per_sector := 512, sectors_per_cluster := 1, reserved_sectors := 1,
        fat_count := 2, root_dir_capacity := 16, logical_sectors16 := 0,
        sectors_per_fat := 1, logical_sectors32 := 0 } := by decide!
  rw [hsup] at hbpb
  refine ⟨by rw [hbpb], by rw [hbpb, hlen]; decide, ?_, ?_⟩
  · unfold fat_copy
    rw [hbpb]
    show sectors_at img_2gib (1 + 0 * 1) 1 = sectors_at img_2gib (1 + 1 * 1) 1
    unfold img_2gib
    rw [sectors_at_zeros _ _ (0 * 1) 1 (bpb_sector_length _ _ _ _ _ _ _) (by decide),
      sectors_at_zeros _ _ (1 * 1) 1 (bpb_sector_length _ _ _ _ _ _ _) (by decide)]
  · have hread : disk_read img_2gib (to_int32 ((0 : Nat) : Int)) [] 1 =
        { ret := -1, errno := some Errno.EIO, buffer := [] } := by
      unfold disk_read
      rw [hlen]
      rfl
    unfold fat_open
    rw [hread]
    rfl

/-! ## `fat_open`: the in-memory FAT and the geometry -/

/-- C11 (amended): for every volume that `fat_open` mounts at sector 0, the
in-memory FAT is byte-for-byte equal to the on-disk FAT copies 0 and 1, copy `i`
being the `sectors_per_fat` sectors at `reserved_sectors + i * sectors_per_fat`. -/
theorem fat_open_fat_copies (pdisk : List Nat) (h1 h2 : Nat) (v : volume_t)
    (hopen : fat_open pdisk 0 h1 h2 = Result.ok v) :
    v.super = bpb_of pdisk ∧ v.fat = fat_copy pdisk 0 ∧ v.fat = fat_copy pdisk 1 := by
  obtain ⟨hr, hb, hload⟩ := fat_open_ok pdisk 0 h1 h2 v hopen
  rw [to_int32_zero] at hr hb hload
  have hbuf := (disk_read_success pdisk [] 0 1 (by decide) (by decide) hr).1
  rw [memcpy_at_nil_buffer, Nat.cast_one] at hbuf
  rw [hbuf] at hb hload
  change (bpb_of pdisk).bytes_per_sector = 512 at hb
  change fat_open_load pdisk (fat_open_geometry (bpb_of pdisk) pdisk h1 h2) = Result.ok v
    at hload
  generalize hsup : bpb_of pdisk = sup at hb hload
  have hres : sup.reserved_sectors < 65536 := by rw [← hsup]; exact le16_lt _ _
  have hspf : sup.sectors_per_fat < 65536 := by rw [← hsup]; exact le16_lt _ _
  have hffs : (fat_open_geometry sup pdisk h1 h2).first_fat_sector = sup.reserved_sectors :=
    to_uint16_of_small _ hres
  have hfsz : (fat_open_geometry sup pdisk h1 h2).fat_size = 512 * sup.sectors_per_fat := by
    show to_uint32 ((sup.sectors_per_fat : Int) * (sup.bytes_per_sector : Int)) = _
    rw [hb]
    have : ((sup.sectors_per_fat : Int) * ((512 : Nat) : Int)) =
        ((512 * sup.sectors_per_fat : Nat) : Int) := by push_cast; ring
    rw [this, to_uint32_of_nat _ (by omega)]
  have hsuper : (fat_open_geometry sup pdisk h1 h2).super = sup := rfl
  obtain ⟨r1, r2, hcmp, hv⟩ := fat_open_load_ok pdisk _ v hload
  rw [hffs, hsuper] at r1 r2 hcmp hv
  rw [hfsz] at hcmp
  have hcast : ((sup.reserved_sectors : Int) + (sup.sectors_per_fat : Int)) =
      ((sup.reserved_sectors + sup.sectors_per_fat : Nat) : Int) := by push_cast; rfl
  rw [hcast] at r2 hcmp
  obtain ⟨b1, l1⟩ := disk_read_success pdisk [] sup.reserved_sectors sup.sectors_per_fat
    (by omega) hspf r1
  obtain ⟨b2, l2⟩ := disk_read_success pdisk [] (sup.reserved_sectors + sup.sectors_per_fat)
    sup.sectors_per_fat (by omega) hspf r2
  rw [memcpy_at_nil_buffer] at b1 b2
  rw [b1, b2, List.take_of_length_le (by omega), List.take_of_length_le (by omega)] at hcmp
  have hfat : v.fat = sectors_at pdisk sup.reserved_sectors sup.sectors_per_fat := by
    rw [hv, b1]
  have hvs : v.super = sup := by rw [hv]
  refine ⟨hvs, ?_, ?_⟩
  · rw [hfat]; unfold fat_copy; rw [hsup]; simp
  · rw [hfat, hcmp]; unfold fat_copy; rw [hsup]; simp

/-- C11, an instance: the FAT of the volume mounted from `img_a`. -/
theorem fat_open_fat_copies_witness :
    vol_a.fat = fat_copy img_a 0 ∧ vol_a.fat = fat_copy img_a 1 :=
  (fat_open_fat_copies img_a 0 0 vol_a fat_open_img_a).2

/-- C11 as stated fails: `img_3fats` has `fat_count = 3` and mounts, but its third
FAT copy differs from the in-memory FAT, which is only checked against the second. -/
theorem fat_open_ignores_third_copy :
    (bpb_of img_3fats).fat_count = 3 ∧
    fat_open img_3fats 0 0 0 = Result.ok
      { fat_open_geometry (bpb_of img_3fats) img_3fats 0 0 with fat := fat_sector_a } ∧
    fat_sector_a ≠ fat_copy img_3fats 2 := by
  decide!

theorem geometry_fields (sup : super_t) (pdisk : List Nat) (h1 h2 : Nat)
    (hb : sup.bytes_per_sector = 512)
    (hres : sup.reserved_sectors < 65536) (hcap : sup.root_dir_capacity < 65536) :
    (fat_open_geometry sup pdisk h1 h2).root_dir_sectors
      = (sup.root_dir_capacity * 32 + 511) / 512 ∧
    (fat_open_geometry sup pdisk h1 h2).first_fat_sector = sup.reserved_sectors ∧
    (fat_open_geometry sup pdisk h1 h2).first_data_sector
      = to_uint16 ((sup.reserved_sectors + sup.fat_count * sup.sectors_per_fat
          + (sup.root_dir_capacity * 32 + 511) / 512 : Nat)) ∧
    (fat_open_geometry sup pdisk h1 h2).first_root_dir_sector
      = to_uint16 (((fat_open_geometry sup pdisk h1 h2).first_data_sector : Int)
          - (((sup.root_dir_capacity * 32 + 511) / 512 : Nat) : Int)) := by
  have hrds : (fat_open_geometry sup pdisk h1 h2).root_dir_sectors
      = (sup.root_dir_capacity * 32 + 511) / 512 := by
    show to_uint16 (((sup.root_dir_capacity * 32 + (sup.bytes_per_sector - 1))
      / sup.bytes_per_sector : Nat)) = _
    rw [hb]
    exact to_uint16_of_small _ (by omega)
  refine ⟨hrds, to_uint16_of_small _ hres, ?_, ?_⟩
  · show to_uint16 ((sup.reserved_sectors : Int) + (sup.fat_count : Int) * (sup.sectors_per_fat : Int)
      + ((fat_open_geometry sup pdisk h1 h2).root_dir_sectors : Int)) = _
    rw [hrds]
    push_cast
    rfl
  · show to_uint16 (((fat_open_geometry sup pdisk h1 h2).first_data_sector : Int)
      - ((fat_open_geometry sup pdisk h1 h2).root_dir_sectors : Int)) = _
    rw [hrds]

/-- C12 (amended): for every BPB accepted by `fat_open` the mounted volume has
`root_dir_sectors = ceil(root_dir_capacity * 32 / 512)` and `first_fat_sector =
reserved_sectors`; when `reserved_sectors + fat_count * sectors_per_fat +
root_dir_sectors` fits the 16-bit fields (is below 65536) it has
`first_root_dir_sector = reserved_sectors + fat_count * sectors_per_fat` and
`first_data_sector = first_root_dir_sector + root_dir_sectors` as exact integers. -/
theorem fat_open_geometry_exact (pdisk : List Nat) (first_sector h1 h2 : Nat) (v : volume_t)
    (hopen : fat_open pdisk first_sector h1 h2 = Result.ok v) :
    v.super = super_of_sector (disk_read pdisk (to_int32 first_sector) [] 1).buffer ∧
    v.root_dir_sectors = (v.super.root_dir_capacity * 32 + 511) / 512 ∧
    v.first_fat_sector = v.super.reserved_sectors ∧
    (v.super.reserved_sectors + v.super.fat_count * v.super.sectors_per_fat
        + (v.super.root_dir_capacity * 32 + 511) / 512 < 65536 →
      v.first_root_dir_sector
        = v.super.reserved_sectors + v.super.fat_count * v.super.sectors_per_fat ∧
      v.first_data_sector = v.first_root_dir_sector + v.root_dir_sectors) := by
  obtain ⟨_, hb, hload⟩ := fat_open_ok pdisk first_sector h1 h2 v hopen
  generalize hsup : super_of_sector (disk_read pdisk (to_int32 first_sector) [] 1).buffer = sup
    at hb hload
  have hres : sup.reserved_sectors < 65536 := by rw [← hsup]; exact le16_lt _ _
  have hcap : sup.root_dir_capacity < 65536 := by rw [← hsup]; exact le16_lt _ _
  obtain ⟨g1, g2, g3, g4⟩ := geometry_fields sup pdisk h1 h2 hb hres hcap
  obtain ⟨_, _, _, hv⟩ := fat_open_load_ok pdisk _ v hload
  have e0 : v.super = sup := by rw [hv]; rfl
  have e1 : v.root_dir_sectors = (fat_open_geometry sup pdisk h1 h2).root_dir_sectors := by
    rw [hv]
  have e2 : v.first_fat_sector = (fat_open_geometry sup pdisk h1 h2).first_fat_sector := by
    rw [hv]
  have e3 : v.first_data_sector = (fat_open_geometry sup pdisk h1 h2).first_data_sector := by
    rw [hv]
  have e4 : v.first_root_dir_sector
      = (fat_open_geometry sup pdisk h1 h2).first_root_dir_sector := by
    rw [hv]
  rw [e0, e1, e2, e3, e4, g1, g2]
  refine ⟨rfl, rfl, rfl, ?_⟩
  intro hfit
  have hfd : (fat_open_geometry sup pdisk h1 h2).first_data_sector
      = sup.reserved_sectors + sup.fat_count * sup.sectors_per_fat
          + (sup.root_dir_capacity * 32 + 511) / 512 := by
    rw [g3]; exact to_uint16_of_small _ hfit
  have hfr : (fat_open_geometry sup pdisk h1 h2).first_root_dir_sector
      = sup.reserved_sectors + sup.fat_count * sup.sectors_per_fat := by
    rw [g4, hfd]
    have : (((sup.reserved_sectors + sup.fat_count * sup.sectors_per_fat
        + (sup.root_dir_capacity * 32 + 511) / 512 : Nat) : Int)
        - (((sup.root_dir_capacity * 32 + 511) / 512 : Nat) : Int))
        = ((sup.reserved_sectors + sup.fat_count * sup.sectors_per_fat : Nat) : Int) := by
      push_cast; ring
    rw [this]
    exact to_uint16_of_small _ (by omega)
  rw [hfr, hfd]
  exact ⟨rfl, rfl⟩

/-- C12, an instance: the geometry of the volume mounted from `img_a`. -/
theorem fat_open_geometry_exact_witness :
    vol_a.first_root_dir_sector
      = vol_a.super.reserved_sectors + vol_a.super.fat_count * vol_a.super.sectors_per_fat ∧
    vol_a.first_data_sector = vol_a.first_root_dir_sector + vol_a.root_dir_sectors :=
  (fat_open_geometry_exact img_a 0 0 0 vol_a fat_open_img_a).2.2.2 (by decide)

/-- C12 as stated fails: `img_wrap` (one reserved sector, 255 FATs of 257 sectors)
mounts, `reserved_sectors + fat_count * sectors_per_fat` is 65536, and the 16-bit
field `first_root_dir_sector` holds 0. -/
theorem fat_open_geometry_wraps :
    ∃ v, fat_open img_wrap 0 0 0 = Result.ok v ∧
      v.super.reserved_sectors + v.super.fat_count * v.super.sectors_per_fat = 65536 ∧
      v.first_root_dir_sector = 0 ∧ v.first_data_sector = 1 := by
  have hlen : img_wrap.length = 263680 := by
    simp [img_wrap, bpb_sector_length, zeros_length]
  have hbpb : bpb_of img_wrap =
      { bytes_per_sector := 512, sectors_per_cluster := 1, reserved_sectors := 1,
        fat_count := 255, root_dir_capacity := 16, logical_sectors16 := 0,
        sectors_per_fat := 257, logical_sectors32 := 0 } := by
    unfold bpb_of img_wrap
    rw [sectors_at_boot _ _ (bpb_sector_length _ _ _ _ _ _ _)]
    decide!
  have hcopies : fat_copy img_wrap 0 = fat_copy img_wrap 1 := by
    unfold fat_copy
    rw [hbpb]
    show sectors_at img_wrap (1 + 0 * 257) 257 = sectors_at img_wrap (1 + 1 * 257) 257
    unfold img_wrap
    rw [sectors_at_zeros _ _ (0 * 257) 257 (bpb_sector_length _ _ _ _ _ _ _) (by decide),
      sectors_at_zeros _ _ (1 * 257) 257 (bpb_sector_length _ _ _ _ _ _ _) (by decide)]
  have hopen := (fat_open_sector_zero img_wrap 0 0 (by rw [hlen]; decide)
    (by rw [hlen]; decide) (by rw [hbpb]) (by rw [hbpb, hlen]; decide)).2 hcopies
  rw [hbpb] at hopen
  exact ⟨_, hopen, by decide, by decide, by decide⟩

/-- C13 fails on the code: `img_ls32` has `logical_sectors16 = 0`,
`logical_sectors32 = 65544`, one reserved sector, two FATs of one sector and one
root sector, so the claim gives `total_sectors = 65544` and `data_sectors = 65540`;
the mounted volume has `total_sectors = 8` (a 16-bit field) and a `data_sectors`
that depends on what the fresh heap block held in `root_dir_sectors` (5 for the
value 0, `2^32 - 4` for the value 9). -/
theorem fat_open_sector_counts_diverge :
    (bpb_of img_ls32).logical_sectors16 = 0 ∧
    (bpb_of img_ls32).logical_sectors32 = 65544 ∧
    mounted_sector_counts (fat_open img_ls32 0 0 0) = some (8, 5) ∧
    mounted_sector_counts (fat_open img_ls32 0 9 0) = some (8, 4294967292) := by
  decide!

/-! ## `dir_open`: the listing passes -/

/-- A read of one sector at a sector number below `2^22` either fails and leaves
the buffer alone, or returns 1 and stores that sector of the image. -/
theorem disk_read_one_cases (pdisk buffer : List Nat) (first : Nat) (hf : first < 4194304) :
    (disk_read pdisk (first : Int) buffer 1).buffer = buffer ∨
    ((first + 1) * 512 ≤ pdisk.length ∧
      (disk_read pdisk (first : Int) buffer 1).buffer
        = memcpy_at buffer 0 (sectors_at pdisk first 1)) := by
  have h := disk_read_eq pdisk buffer first 1 hf (by decide)
  rw [Nat.cast_one] at h
  rw [h]
  by_cases h1 : to_int32 pdisk.length < 0
  · left; rw [if_pos h1]
  · rw [if_neg h1]
    by_cases h2 : ((first + 1 : Nat) : Int) > to_int32 pdisk.length / 512
    · left; rw [if_pos h2]
    · rw [if_neg h2]
      right
      have hle : to_int32 (pdisk.length : Int) ≤ pdisk.length := by
        unfold to_int32 at h1 ⊢; omega
      have hin : (first + 1) * 512 ≤ pdisk.length := by omega
      refine ⟨hin, ?_⟩
      split <;> rfl

theorem memcpy_at_sector (buffer sector : List Nat) (hb : buffer.length = 512)
    (hs : sector.length = 512) : memcpy_at buffer 0 sector = sector := by
  unfold memcpy_at
  simp [hs, List.drop_eq_nil_of_le (Nat.le_of_eq hb)]

/-- The sector buffer that the root scans work on: starting from a buffer of 512
bytes, one read of the first root sector leaves either the buffer itself (failed
read) or that sector of the image. -/
theorem root_read_cases (pvolume : volume_t) (buffer : List Nat)
    (hfrs : pvolume.first_root_dir_sector < 65536) (hb : buffer.length = 512) :
    (disk_read pvolume.disk pvolume.first_root_dir_sector buffer 1).buffer = buffer ∨
    ((pvolume.first_root_dir_sector + 1) * 512 ≤ pvolume.disk.length ∧
      (disk_read pvolume.disk pvolume.first_root_dir_sector buffer 1).buffer
        = sectors_at pvolume.disk pvolume.first_root_dir_sector 1) := by
  rcases disk_read_one_cases pvolume.disk buffer pvolume.first_root_dir_sector (by omega) with
    h | ⟨hin, h⟩
  · left; exact h
  · right
    refine ⟨hin, ?_⟩
    rw [h, memcpy_at_sector _ _ hb (by rw [sectors_at_length _ _ _ hin])]

theorem dir_count_sector_eq (buffer : List Nat) : ∀ (r j : Nat) (n : Int),
    dir_count_sector buffer r j n =
      (n + ((live_slots_sector buffer r j).1.length : Nat), (live_slots_sector buffer r j).2) := by
  intro r
  induction r with
  | zero => intro j n; simp [dir_count_sector, live_slots_sector]
  | succ r ih =>
    intro j n
    unfold dir_count_sector live_slots_sector
    dsimp only
    split
    · exact ih _ _
    · split
      · exact ih _ _
      · split
        · simp
        · rw [ih]
          simp only [List.length_cons]
          refine Prod.ext ?_ rfl
          simp only []
          push_cast
          ring

theorem live_slots_sector_length_le (buffer : List Nat) : ∀ (r j : Nat),
    (live_slots_sector buffer r j).1.length ≤ r := by
  intro r
  induction r with
  | zero => intro j; simp [live_slots_sector]
  | succ r ih =>
    intro j
    unfold live_slots_sector
    dsimp only
    split
    · exact Nat.le_succ_of_le (ih _)
    · split
      · exact Nat.le_succ_of_le (ih _)
      · split
        · simp
        · simp only [List.length_cons]
          exact Nat.succ_le_succ (ih _)

theorem fill_slot_get (done : List (List Nat)) (m : Nat) (z : List Nat) (hm : 0 < m) :
    (done ++ List.replicate m z).get? done.length = some z := by
  rw [List.get?_eq_getElem?, List.getElem?_append_right (Nat.le_refl _)]
  simp [List.getElem?_replicate, hm]

theorem fill_slot_set (done : List (List Nat)) (m : Nat) (z x : List Nat) (hm : 0 < m) :
    (done ++ List.replicate m z).set done.length x
      = (done ++ [x]) ++ List.replicate (m - 1) z := by
  obtain ⟨k, rfl⟩ : ∃ k, m = k + 1 := ⟨m - 1, by omega⟩
  rw [List.set_append_right _ _ (Nat.le_refl _)]
  simp [List.replicate_succ]

theorem dir_fill_sector_eq (buffer : List Nat) : ∀ (r j : Nat) (done : List (List Nat)) (m : Nat),
    (live_slots_sector buffer r j).1.length ≤ m →
    dir_fill_sector buffer r j done.length (done ++ List.replicate m (zeros 32)) =
      some (done.length + (live_slots_sector buffer r j).1.length,
        done ++ (live_slots_sector buffer r j).1.map normalized
          ++ List.replicate (m - (live_slots_sector buffer r j).1.length) (zeros 32),
        (live_slots_sector buffer r j).2) := by
  intro r
  induction r with
  | zero => intro j done m _; simp [dir_fill_sector, live_slots_sector]
  | succ r ih =>
    intro j done m hm
    unfold dir_fill_sector
    unfold live_slots_sector at hm ⊢
    dsimp only at hm ⊢
    split
    · rename_i h1
      rw [if_pos h1] at hm
      exact ih _ _ _ hm
    · rename_i h1
      rw [if_neg h1] at hm
      split
      · rename_i h2
        rw [if_pos h2] at hm
        exact ih _ _ _ hm
      · rename_i h2
        rw [if_neg h2] at hm
        split
        · simp
        · rename_i h3
          rw [if_neg h3] at hm
          simp only [List.length_cons] at hm
          rw [fill_slot_get done m _ (by omega)]
          dsimp only
          rw [fill_slot_set done m _ _ (by omega)]
          have hl : (done ++ [remove_spaces_from_name (slot_at buffer j) (zeros 32)]).length
              = done.length + 1 := by simp
          rw [← hl, ih (j + 1) _ (m - 1) (by omega)]
          simp only [List.length_cons, List.map_cons, List.append_assoc, List.singleton_append,
            hl, normalized]
          refine congrArg some (Prod.ext ?_ (Prod.ext ?_ rfl))
          · simp only []; omega
          · simp only []
            congr 3
            omega

theorem memcpy_at_idem (b s : List Nat) : memcpy_at (memcpy_at b 0 s) 0 s = memcpy_at b 0 s := by
  simp [memcpy_at]

/-- Reading the same sector again into the buffer changes nothing. -/
theorem disk_read_idem (pdisk buffer : List Nat) (first : Nat) (hf : first < 4194304) :
    (disk_read pdisk (first : Int) (disk_read pdisk (first : Int) buffer 1).buffer 1).buffer
      = (disk_read pdisk (first : Int) buffer 1).buffer := by
  rcases disk_read_one_cases pdisk buffer first hf with h | ⟨_, h⟩
  · rw [h, h]
  · rcases disk_read_one_cases pdisk (disk_read pdisk (first : Int) buffer 1).buffer first hf with
      h2 | ⟨_, h2⟩
    · exact h2
    · rw [h2, h, memcpy_at_idem]

theorem live_slots_repeat_succ (B : List Nat) (n : Nat) (p : List (List Nat) × Bool)
    (hp : live_slots_sector B 16 0 = p) :
    live_slots_repeat B (n + 1) = if p.2 then p.1 else p.1 ++ live_slots_repeat B n := by
  rw [← hp]; rfl

theorem dir_count_succ (pvolume : volume_t) (r : Nat) (buffer B : List Nat) (n : Int)
    (p : List (List Nat) × Bool) (hp : live_slots_sector B 16 0 = p)
    (hb : (disk_read pvolume.disk pvolume.first_root_dir_sector buffer 1).buffer = B) :
    dir_count pvolume (r + 1) buffer n =
      if p.2 then (n + (p.1.length : Nat), B)
      else dir_count pvolume r B (n + (p.1.length : Nat)) := by
  have h : dir_count pvolume (r + 1) buffer n =
      match dir_count_sector
        (disk_read pvolume.disk pvolume.first_root_dir_sector buffer 1).buffer 16 0 n with
      | (k, true) =>
        (k, (disk_read pvolume.disk pvolume.first_root_dir_sector buffer 1).buffer)
      | (k, false) => dir_count pvolume r
        (disk_read pvolume.disk pvolume.first_root_dir_sector buffer 1).buffer k := rfl
  rw [h, hb, dir_count_sector_eq, hp]
  obtain ⟨slots, flag⟩ := p
  cases flag <;> rfl

theorem dir_fill_succ (pvolume : volume_t) (r : Nat) (buffer B : List Nat)
    (done : List (List Nat)) (m : Nat)
    (p : List (List Nat) × Bool) (hp : live_slots_sector B 16 0 = p)
    (hb : (disk_read pvolume.disk pvolume.first_root_dir_sector buffer 1).buffer = B)
    (hm : p.1.length ≤ m) :
    dir_fill pvolume (r + 1) buffer done.length (done ++ List.replicate m (zeros 32)) =
      if p.2 then
        some (done ++ p.1.map normalized ++ List.replicate (m - p.1.length) (zeros 32))
      else dir_fill pvolume r B (done.length + p.1.length)
        (done ++ p.1.map normalized ++ List.replicate (m - p.1.length) (zeros 32)) := by
  have h : dir_fill pvolume (r + 1) buffer done.length (done ++ List.replicate m (zeros 32)) =
      match dir_fill_sector
        (disk_read pvolume.disk pvolume.first_root_dir_sector buffer 1).buffer 16 0 done.length
        (done ++ List.replicate m (zeros 32)) with
      | none => none
      | some (_, files1, true) => some files1
      | some (iter1, files1, false) => dir_fill pvolume r
        (disk_read pvolume.disk pvolume.first_root_dir_sector buffer 1).buffer iter1 files1 := rfl
  rw [h, hb, dir_fill_sector_eq B 16 0 done m (by rw [hp]; exact hm), hp]
  obtain ⟨slots, flag⟩ := p
  cases flag <;> rfl

theorem dir_count_eq (pvolume : volume_t) (B : List Nat)
    (hB : (disk_read pvolume.disk pvolume.first_root_dir_sector B 1).buffer = B) :
    ∀ (r : Nat) (buffer : List Nat) (n : Int),
      (disk_read pvolume.disk pvolume.first_root_dir_sector buffer 1).buffer = B →
      (dir_count pvolume r buffer n).1 = n + ((live_slots_repeat B r).length : Nat) ∧
      (disk_read pvolume.disk pvolume.first_root_dir_sector
        (dir_count pvolume r buffer n).2 1).buffer = B := by
  intro r
  induction r with
  | zero =>
    intro buffer n hb
    have h0 : dir_count pvolume 0 buffer n = (n, buffer) := rfl
    have h1 : live_slots_repeat B 0 = [] := rfl
    rw [h0, h1]
    exact ⟨by simp, hb⟩
  | succ r ih =>
    intro buffer n hb
    generalize hp : live_slots_sector B 16 0 = p
    rw [dir_count_succ pvolume r buffer B n p hp hb, live_slots_repeat_succ B r p hp]
    obtain ⟨slots, flag⟩ := p
    cases flag
    · obtain ⟨i1, i2⟩ := ih B (n + (slots.length : Nat)) hB
      simp only [Bool.false_eq_true, if_false]
      rw [i1]
      refine ⟨?_, i2⟩
      rw [List.length_append]
      push_cast
      ring
    · simp only [if_true]
      exact ⟨trivial, hB⟩

theorem dir_fill_eq (pvolume : volume_t) (B : List Nat)
    (hB : (disk_read pvolume.disk pvolume.first_root_dir_sector B 1).buffer = B) :
    ∀ (r : Nat) (buffer : List Nat) (done : List (List Nat)) (m : Nat),
      (disk_read pvolume.disk pvolume.first_root_dir_sector buffer 1).buffer = B →
      (live_slots_repeat B r).length ≤ m →
      dir_fill pvolume r buffer done.length (done ++ List.replicate m (zeros 32)) =
        some (done ++ (live_slots_repeat B r).map normalized
          ++ List.replicate (m - (live_slots_repeat B r).length) (zeros 32)) := by
  intro r
  induction r with
  | zero =>
    intro buffer done m _ _
    have h0 : dir_fill pvolume 0 buffer done.length (done ++ List.replicate m (zeros 32))
        = some (done ++ List.replicate m (zeros 32)) := rfl
    have h1 : live_slots_repeat B 0 = [] := rfl
    rw [h0, h1]
    simp
  | succ r ih =>
    intro buffer done m hb hm
    generalize hp : live_slots_sector B 16 0 = p
    rw [live_slots_repeat_succ B r p hp] at hm ⊢
    obtain ⟨slots, flag⟩ := p
    cases flag
    · simp only [Bool.false_eq_true, if_false, List.length_append] at hm ⊢
      rw [dir_fill_succ pvolume r buffer B done m _ hp hb (by simp only []; omega)]
      simp only [Bool.false_eq_true, if_false]
      have hl : (done ++ slots.map normalized).length = done.length + slots.length := by simp
      have hr : (live_slots_repeat B r).length ≤ m - slots.length := by omega
      rw [← hl, ih B (done ++ slots.map normalized) (m - slots.length) hB hr]
      have e : m - slots.length - (live_slots_repeat B r).length
          = m - (slots.length + (live_slots_repeat B r).length) := by omega
      rw [e]
      simp only [List.map_append, List.append_assoc]
    · simp only [if_true] at hm ⊢
      rw [dir_fill_succ pvolume r buffer B done m _ hp hb hm]
      simp only [if_true]

/-- The listing part of `dir_open`: the snapshot holds the normalized names of the
slots that `root_dir_sectors` passes over the root sector buffer list. -/
theorem dir_open_list_eq (pvolume : volume_t) (buffer : List Nat)
    (hfrs : pvolume.first_root_dir_sector < 65536) :
    dir_open_list pvolume buffer = Result.ok
      { nr_of_files := ((live_slots_repeat
          (disk_read pvolume.disk pvolume.first_root_dir_sector buffer 1).buffer
          pvolume.root_dir_sectors).length : Nat),
        files := (live_slots_repeat
          (disk_read pvolume.disk pvolume.first_root_dir_sector buffer 1).buffer
          pvolume.root_dir_sectors).map normalized,
        current := 0 } := by
  have hB := disk_read_idem pvolume.disk buffer pvolume.first_root_dir_sector (by omega)
  generalize hBdef : (disk_read pvolume.disk pvolume.first_root_dir_sector buffer 1).buffer = B
    at hB
  obtain ⟨c1, c2⟩ := dir_count_eq pvolume B hB pvolume.root_dir_sectors buffer 0 hBdef
  unfold dir_open_list
  dsimp only
  rw [c1]
  simp only [Int.zero_add, Int.toNat_ofNat]
  have hf := dir_fill_eq pvolume B hB pvolume.root_dir_sectors
    (dir_count pvolume pvolume.root_dir_sectors buffer 0).2 []
    (live_slots_repeat B pvolume.root_dir_sectors).length c2 (Nat.le_refl _)
  simp only [List.length_nil, List.nil_append, Nat.sub_self, List.replicate_zero,
    List.append_nil] at hf
  rw [hf]

theorem dir_or_file_ne_zero (e : List Nat) (h : ¬ dir_or_file e = 0) :
    entry_attributes e &&& 8 = 0 := by
  unfold dir_or_file at h
  by_cases h8 : entry_attributes e &&& 8 = 0
  · exact h8
  · rw [if_pos h8] at h
    exact absurd rfl h

theorem live_slots_sector_mem (B : List Nat) : ∀ (r j : Nat) (e : List Nat),
    e ∈ (live_slots_sector B r j).1 →
    (∃ k, j ≤ k ∧ k < j + r ∧ e = slot_at B k) ∧
      e.getD 0 0 ≠ 0 ∧ e.getD 0 0 ≠ 229 ∧ entry_attributes e &&& 8 = 0 := by
  intro r
  induction r with
  | zero => intro j e h; simp [live_slots_sector] at h
  | succ r ih =>
    intro j e h
    have lift : ((∃ k, j + 1 ≤ k ∧ k < j + 1 + r ∧ e = slot_at B k) ∧
        e.getD 0 0 ≠ 0 ∧ e.getD 0 0 ≠ 229 ∧ entry_attributes e &&& 8 = 0) →
        ((∃ k, j ≤ k ∧ k < j + (r + 1) ∧ e = slot_at B k) ∧
        e.getD 0 0 ≠ 0 ∧ e.getD 0 0 ≠ 229 ∧ entry_attributes e &&& 8 = 0) := by
      rintro ⟨⟨k, h1, h2, h3⟩, h4⟩
      exact ⟨⟨k, by omega, by omega, h3⟩, h4⟩
    unfold live_slots_sector at h
    dsimp only at h
    by_cases h1 : dir_or_file (slot_at B j) = 0
    · rw [if_pos h1] at h; exact lift (ih _ _ h)
    · rw [if_neg h1] at h
      by_cases h2 : (slot_at B j).getD 0 0 = 229
      · rw [if_pos h2] at h; exact lift (ih _ _ h)
      · rw [if_neg h2] at h
        by_cases h3 : (slot_at B j).getD 0 0 = 0
        · rw [if_pos h3] at h; simp at h
        · rw [if_neg h3] at h
          rcases List.mem_cons.mp h with he | he
          · subst he
            exact ⟨⟨j, Nat.le_refl _, by omega, rfl⟩, h3, h2, dir_or_file_ne_zero _ h1⟩
          · exact lift (ih _ _ he)

theorem live_slots_repeat_mem (B : List Nat) : ∀ (n : Nat) (e : List Nat),
    e ∈ live_slots_repeat B n → e ∈ (live_slots_sector B 16 0).1 := by
  intro n
  induction n with
  | zero => intro e h; simp [live_slots_repeat] at h
  | succ n ih =>
    intro e h
    generalize hp : live_slots_sector B 16 0 = p at ih ⊢
    rw [live_slots_repeat_succ B n p hp] at h
    by_cases hf : p.2 = true
    · rw [if_pos hf] at h; exact h
    · rw [if_neg hf] at h
      rcases List.mem_append.mp h with h1 | h1
      · exact h1
      · exact ih e h1

theorem live_slots_sector_zeros : live_slots_sector (zeros 512) 16 0 = ([], true) := by
  decide!

theorem dir_gate_buffer (pvolume : volume_t) (dir_path : List Nat)
    (hfrs : pvolume.first_root_dir_sector < 65536) :
    ∀ (r : Nat) (buffer : List Nat) (f : Bool) (res : Bool × List Nat),
      dir_gate pvolume dir_path r buffer f = some res →
      (disk_read pvolume.disk pvolume.first_root_dir_sector res.2 1).buffer
        = (disk_read pvolume.disk pvolume.first_root_dir_sector buffer 1).buffer := by
  intro r
  induction r with
  | zero =>
    intro buffer f res h
    have h0 : dir_gate pvolume dir_path 0 buffer f = some (f, buffer) := rfl
    rw [h0] at h
    injection h with h
    rw [← h]
  | succ r ih =>
    intro buffer f res h
    have hstep : dir_gate pvolume dir_path (r + 1) buffer f =
        match dir_gate_sector dir_path
          (disk_read pvolume.disk pvolume.first_root_dir_sector buffer 1).buffer 16 0 f with
        | none => none
        | some (is_found1, true) => some (is_found1,
            (disk_read pvolume.disk pvolume.first_root_dir_sector buffer 1).buffer)
        | some (is_found1, false) => dir_gate pvolume dir_path r
            (disk_read pvolume.disk pvolume.first_root_dir_sector buffer 1).buffer is_found1 := rfl
    rw [hstep] at h
    have hid := disk_read_idem pvolume.disk buffer pvolume.first_root_dir_sector (by omega)
    generalize (disk_read pvolume.disk pvolume.first_root_dir_sector buffer 1).buffer = b1 at h hid ⊢
    generalize dir_gate_sector dir_path b1 16 0 f = g at h
    match g, h with
    | some (f1, true), h =>
      injection h with h
      rw [← h]
      exact hid
    | some (f1, false), h =>
      rw [ih b1 f1 res h]
      exact hid

/-- The snapshot of `dir_open`, for every path that it accepts: the normalized
names of the slots that `root_dir_sectors` passes over the root sector buffer
list. -/
theorem dir_open_ok (pvolume : volume_t) (dir_path : List Nat) (d : dir_t)
    (hfrs : pvolume.first_root_dir_sector < 65536)
    (hopen : dir_open pvolume dir_path = Result.ok d) :
    d = { nr_of_files := ((live_slots_repeat (root_buffer pvolume)
            pvolume.root_dir_sectors).length : Nat),
          files := (live_slots_repeat (root_buffer pvolume)
            pvolume.root_dir_sectors).map normalized,
          current := 0 } := by
  unfold dir_open at hopen
  by_cases hroot : cstr dir_path ≠ root_path
  · rw [if_pos hroot] at hopen
    generalize hg : dir_gate pvolume dir_path pvolume.root_dir_sectors (zeros 512) false = g
      at hopen
    match g, hg, hopen with
    | none, _, hopen => exact Result.noConfusion hopen
    | some (found, buffer), hg, hopen =>
      dsimp only at hopen
      by_cases hf : found = false
      · rw [if_pos hf] at hopen; exact Result.noConfusion hopen
      · rw [if_neg hf, dir_open_list_eq pvolume buffer hfrs] at hopen
        have hb := dir_gate_buffer pvolume dir_path hfrs _ _ _ _ hg
        dsimp only at hb
        rw [hb] at hopen
        injection hopen with hopen
        exact hopen.symm
  · rw [if_neg hroot, dir_open_list_eq pvolume (zeros 512) hfrs] at hopen
    injection hopen with hopen
    exact hopen.symm

/-! ## `dir_open`: the snapshot -/

/-- C6: every entry of a snapshot returned by `dir_open`, for any path, is the
normalized name of a slot of the first root sector of the image, and that slot has
a first byte different from 0x00 and from 0xE5 and no VOLUME_ID attribute. -/
theorem dir_open_entries_live (pvolume : volume_t) (dir_path : List Nat) (d : dir_t)
    (hfrs : pvolume.first_root_dir_sector < 65536)
    (hopen : dir_open pvolume dir_path = Result.ok d) :
    ∃ slots : List (List Nat),
      d.files = slots.map normalized ∧ d.nr_of_files = (slots.length : Nat) ∧
      ∀ e ∈ slots,
        ((pvolume.first_root_dir_sector + 1) * 512 ≤ pvolume.disk.length ∧
          ∃ j, j < 16 ∧
            e = slot_at (sectors_at pvolume.disk pvolume.first_root_dir_sector 1) j) ∧
        e.getD 0 0 ≠ 0 ∧ e.getD 0 0 ≠ 229 ∧ entry_attributes e &&& 8 = 0 := by
  have hd := dir_open_ok pvolume dir_path d hfrs hopen
  refine ⟨live_slots_repeat (root_buffer pvolume) pvolume.root_dir_sectors, ?_, ?_, ?_⟩
  · rw [hd]
  · rw [hd]
  · intro e he
    have hmem := live_slots_repeat_mem _ _ e he
    rcases root_read_cases pvolume (zeros 512) hfrs (zeros_length 512) with hz | ⟨hin, hs⟩
    · have hB : root_buffer pvolume = zeros 512 := hz
      rw [hB, live_slots_sector_zeros] at hmem
      simp at hmem
    · have hB : root_buffer pvolume
          = sectors_at pvolume.disk pvolume.first_root_dir_sector 1 := hs
      rw [hB] at hmem
      obtain ⟨⟨k, _, hk, hek⟩, hrest⟩ := live_slots_sector_mem _ _ _ e hmem
      exact ⟨⟨hin, k, by omega, hek⟩, hrest⟩

/-- The image `img_c` mounts as `vol_c`. -/
theorem fat_open_img_c : fat_open img_c 0 0 0 = Result.ok vol_c := by
  decide!

/-- The image `img_b` mounts as `vol_b`. -/
theorem fat_open_img_b : fat_open img_b 0 0 0 = Result.ok vol_b := by
  decide!

/-- The root listing of `vol_c`: the label is skipped, the scan stops at the
terminator. -/
theorem dir_open_vol_c :
    dir_open vol_c root_path = Result.ok
      { nr_of_files := 3,
        files := [[69] ++ zeros 31, [76, 79, 79, 80] ++ zeros 28, [79, 85, 84] ++ zeros 29],
        current := 0 } := by
  decide!

/-- C6, an instance: the three entries of the root listing of `vol_c`. -/
theorem dir_open_entries_live_witness :
    ∃ slots : List (List Nat),
      [[69] ++ zeros 31, [76, 79, 79, 80] ++ zeros 28, [79, 85, 84] ++ zeros 29]
        = slots.map normalized ∧
      ∀ e ∈ slots, e.getD 0 0 ≠ 0 ∧ e.getD 0 0 ≠ 229 ∧ entry_attributes e &&& 8 = 0 := by
  obtain ⟨slots, h1, _, h3⟩ := dir_open_entries_live vol_c root_path _ (by decide)
    dir_open_vol_c
  exact ⟨slots, h1, fun e he => (h3 e he).2⟩

/-- C5 fails on the code: the root directory of `vol_b` has two sectors, the first
with the sixteen files `A` to `P`, the second with `DATA.BIN`, `Q` and the
terminator.  The claimed listing is `A` to `P`, `DATA.BIN`, `Q`; `dir_open` reads
the first root sector twice and lists `A` to `P` twice. -/
theorem dir_open_rereads_first_sector :
    fat_open img_b 0 0 0 = Result.ok vol_b ∧
    (listing_of (dir_open vol_b root_path)
        = some ((List.range 16).map (fun i => [65 + i])
            ++ (List.range 16).map (fun i => [65 + i])) ∧
      root_listing_claimed vol_b
        = (List.range 16).map (fun i => [65 + i])
            ++ [[68, 65, 84, 65, 46, 66, 73, 78], [81]]) :=
  ⟨fat_open_img_b, by decide!⟩

/-- C16 fails on the code: the root of `vol_a` holds the regular file `A`
(attribute ARCHIVE only), so the claim asks `dir_open(vol, "A")` to fail with
`ENOTDIR`; the code fails with `ENOENT`. -/
theorem dir_open_file_is_not_found :
    fat_open img_a 0 0 0 = Result.ok vol_a ∧
    (cstr (normalized (slot_at (sectors_at img_a 3 1) 0)) = [65] ∧
      entry_attributes (slot_at (sectors_at img_a 3 1) 0) = 32 ∧
      dir_open vol_a [65] = Result.fail (some Errno.ENOENT)) :=
  ⟨fat_open_img_a, by decide!⟩

/-- C17 fails on the code: no slot of the root of `vol_c` has the normalized name
`X`, so the claim asks `dir_open(vol, "X")` to fail with `ENOENT`; the root holds
a volume label and the code fails with `ENOTDIR`. -/
theorem dir_open_label_is_not_a_directory :
    fat_open img_c 0 0 0 = Result.ok vol_c ∧
    ((∀ e ∈ root_slots_claimed vol_c, cstr (normalized e) ≠ [88]) ∧
      dir_open vol_c [88] = Result.fail (some Errno.ENOTDIR)) :=
  ⟨fat_open_img_c, by decide!⟩

/-! ## `file_open`: the cluster walk -/

theorem cluster_walk_succ (fat : List Nat) (fuel k : Nat) :
    cluster_walk fat (fuel + 1) k =
      if k < 65528 then
        match fat_entry fat k with
        | none => none
        | some next => (cluster_walk fat fuel next).map (fun cs => k :: cs)
      else some [] := rfl

/-- What one returning step of the walk looks like. -/
theorem cluster_walk_step (fat : List Nat) (fuel k : Nat) (cs : List Nat)
    (h : cluster_walk fat (fuel + 1) k = some cs) :
    (¬ k < 65528 ∧ cs = []) ∨
    (k < 65528 ∧ ∃ next tl, fat_entry fat k = some next ∧
      cluster_walk fat fuel next = some tl ∧ cs = k :: tl) := by
  rw [cluster_walk_succ] at h
  by_cases hk : k < 65528
  · rw [if_pos hk] at h
    right
    refine ⟨hk, ?_⟩
    generalize hfe : fat_entry fat k = o at h
    cases o with
    | none => exact Option.noConfusion h
    | some next =>
      have h2 : (cluster_walk fat fuel next).map (fun cs => k :: cs) = some cs := h
      generalize hw : cluster_walk fat fuel next = w at h2
      cases w with
      | none => exact Option.noConfusion h2
      | some tl => exact ⟨next, tl, rfl, hw, (Option.some.inj h2).symm⟩
  · rw [if_neg hk] at h
    exact Or.inl ⟨hk, (Option.some.inj h).symm⟩

theorem cluster_walk_bounds (fat : List Nat) :
    ∀ (fuel k : Nat) (cs : List Nat), cluster_walk fat fuel k = some cs →
      ∀ c ∈ cs, c < 65528 ∧ 2 * c + 1 < fat.length := by
  intro fuel
  induction fuel with
  | zero => intro k cs h; exact Option.noConfusion h
  | succ fuel ih =>
    intro k cs h c hc
    rcases cluster_walk_step fat fuel k cs h with ⟨_, he⟩ | ⟨hk, next, tl, hfe, hw, he⟩
    · rw [he] at hc; simp at hc
    · rw [he] at hc
      rcases List.mem_cons.mp hc with hck | hct
      · rw [hck]
        refine ⟨hk, ?_⟩
        unfold fat_entry at hfe
        by_cases hl : 2 * k + 1 < fat.length
        · exact hl
        · rw [if_neg hl] at hfe; exact Option.noConfusion hfe
      · exact ih next tl hw c hct

theorem cluster_walk_mono (fat : List Nat) :
    ∀ (fuel k : Nat) (cs : List Nat), cluster_walk fat fuel k = some cs →
      ∀ m, fuel ≤ m → cluster_walk fat m k = some cs := by
  intro fuel
  induction fuel with
  | zero => intro k cs h; exact Option.noConfusion h
  | succ fuel ih =>
    intro k cs h m hm
    obtain ⟨m1, rfl⟩ : ∃ m1, m = m1 + 1 := ⟨m - 1, by omega⟩
    rw [cluster_walk_succ]
    rcases cluster_walk_step fat fuel k cs h with ⟨hk, he⟩ | ⟨hk, next, tl, hfe, hw, he⟩
    · rw [if_neg hk, he]
    · rw [if_pos hk, hfe]
      show (cluster_walk fat m1 next).map (fun cs => k :: cs) = some cs
      rw [ih next tl hw m1 (by omega), he]
      rfl

theorem cluster_walk_det (fat : List Nat) (n m k : Nat) (a b : List Nat)
    (ha : cluster_walk fat n k = some a) (hb : cluster_walk fat m k = some b) : a = b := by
  have h1 := cluster_walk_mono fat n k a ha (max n m) (le_max_left n m)
  have h2 := cluster_walk_mono fat m k b hb (max n m) (le_max_right n m)
  rw [h1] at h2
  exact Option.some.inj h2

theorem cluster_walk_exact (fat : List Nat) :
    ∀ (fuel k : Nat) (cs : List Nat), cluster_walk fat fuel k = some cs →
      cluster_walk fat (cs.length + 1) k = some cs := by
  intro fuel
  induction fuel with
  | zero => intro k cs h; exact Option.noConfusion h
  | succ fuel ih =>
    intro k cs h
    rw [cluster_walk_succ]
    rcases cluster_walk_step fat fuel k cs h with ⟨hk, he⟩ | ⟨hk, next, tl, hfe, hw, he⟩
    · rw [if_neg hk, he]
    · rw [if_pos hk, hfe, he]
      show (cluster_walk fat (tl.length + 1) next).map (fun cs => k :: cs) = some (k :: tl)
      rw [ih next tl hw]
      rfl

theorem cluster_walk_suffix (fat : List Nat) :
    ∀ (fuel k : Nat) (cs : List Nat), cluster_walk fat fuel k = some cs →
      ∀ c ∈ cs, ∃ m suf, cluster_walk fat m c = some suf ∧ suf.length ≤ cs.length := by
  intro fuel
  induction fuel with
  | zero => intro k cs h; exact Option.noConfusion h
  | succ fuel ih =>
    intro k cs h c hc
    rcases cluster_walk_step fat fuel k cs h with ⟨_, he⟩ | ⟨hk, next, tl, hfe, hw, he⟩
    · rw [he] at hc; simp at hc
    · rw [he] at hc
      rcases List.mem_cons.mp hc with hck | hct
      · rw [hck]
        exact ⟨fuel + 1, cs, h, le_refl _⟩
      · obtain ⟨m, suf, hm, hl⟩ := ih next tl hw c hct
        refine ⟨m, suf, hm, ?_⟩
        rw [he, List.length_cons]
        omega

/-- A walk that returns has visited no cluster twice. -/
theorem cluster_walk_nodup (fat : List Nat) :
    ∀ (fuel k : Nat) (cs : List Nat), cluster_walk fat fuel k = some cs → cs.Nodup := by
  intro fuel
  induction fuel with
  | zero => intro k cs h; exact Option.noConfusion h
  | succ fuel ih =>
    intro k cs h
    rcases cluster_walk_step fat fuel k cs h with ⟨_, he⟩ | ⟨hk, next, tl, hfe, hw, he⟩
    · rw [he]; exact List.nodup_nil
    · rw [he]
      refine List.nodup_cons.mpr ⟨?_, ih next tl hw⟩
      intro hmem
      obtain ⟨m, suf, hm, hl⟩ := cluster_walk_suffix fat fuel next tl hw k hmem
      have hdet := cluster_walk_det fat m (fuel + 1) k suf cs hm h
      rw [hdet, he, List.length_cons] at hl
      omega

theorem nodup_length_le (N : Nat) (cs : List Nat) (hn : cs.Nodup)
    (hb : ∀ c ∈ cs, c < N) : cs.length ≤ N := by
  have h1 : cs.toFinset ⊆ Finset.range N := by
    intro c hc
    exact Finset.mem_range.mpr (hb c (List.mem_toFinset.mp hc))
  have h2 := Finset.card_le_card h1
  rw [List.toFinset_card_of_nodup hn, Finset.card_range] at h2
  exact h2

/-- The fuel of `file_open` is enough: a walk that returns with any fuel returns
the same chain with `walk_fuel`. -/
theorem cluster_walk_fuel (fat : List Nat) (fuel k : Nat) (cs : List Nat)
    (h : cluster_walk fat fuel k = some cs) : cluster_walk fat walk_fuel k = some cs := by
  have hlen : cs.length ≤ 65528 :=
    nodup_length_le 65528 cs (cluster_walk_nodup fat fuel k cs h)
      (fun c hc => (cluster_walk_bounds fat fuel k cs h c hc).1)
  have hw : walk_fuel = 65529 := rfl
  exact cluster_walk_mono fat _ k cs (cluster_walk_exact fat fuel k cs h) walk_fuel
    (by rw [hw]; omega)

/-- The chain starts at the starting cluster and follows the FAT links. -/
theorem cluster_walk_links (fat : List Nat) :
    ∀ (fuel k : Nat) (cs : List Nat), cluster_walk fat fuel k = some cs →
      (cs.head? = if k < 65528 then some k else none) ∧
      ∀ i, i + 1 < cs.length → fat_entry fat (cs.getD i 0) = some (cs.getD (i + 1) 0) := by
  intro fuel
  induction fuel with
  | zero => intro k cs h; exact Option.noConfusion h
  | succ fuel ih =>
    intro k cs h
    rcases cluster_walk_step fat fuel k cs h with ⟨hk, he⟩ | ⟨hk, next, tl, hfe, hw, he⟩
    · rw [he, if_neg hk]
      exact ⟨rfl, fun i hi => absurd hi (by simp)⟩
    · rw [he, if_pos hk]
      refine ⟨rfl, ?_⟩
      intro i hi
      obtain ⟨hh, ht⟩ := ih next tl hw
      cases i with
      | zero =>
        cases tl with
        | nil => simp at hi
        | cons t tl2 =>
          by_cases hn : next < 65528
          · rw [if_pos hn] at hh
            have : t = next := Option.some.inj hh
            rw [this]
            exact hfe
          · rw [if_neg hn] at hh
            exact Option.noConfusion hh
      | succ i =>
        have := ht i (by rw [List.length_cons] at hi; omega)
        simpa using this

/-! ## `file_open`: the scan of the root directory -/

theorem file_open_sector_succ (pvolume : volume_t) (name ext buffer : List Nat) (r j : Nat) :
    file_open_sector pvolume name ext buffer (r + 1) j =
      if entry_name (slot_at buffer j) = name ∧ entry_extension (slot_at buffer j) = ext then
        some (file_open_match pvolume name ext (slot_at buffer j))
      else file_open_sector pvolume name ext buffer r (j + 1) := rfl

/-- The slot loop returns the result for the first slot that matches. -/
theorem file_open_sector_find (pvolume : volume_t) (name ext buffer : List Nat) :
    ∀ (r j k : Nat), j ≤ k → k < j + r →
      (∀ i, j ≤ i → i < k →
        ¬ (entry_name (slot_at buffer i) = name ∧ entry_extension (slot_at buffer i) = ext)) →
      entry_name (slot_at buffer k) = name ∧ entry_extension (slot_at buffer k) = ext →
      file_open_sector pvolume name ext buffer r j
        = some (file_open_match pvolume name ext (slot_at buffer k)) := by
  intro r
  induction r with
  | zero => intro j k h1 h2; omega
  | succ r ih =>
    intro j k h1 h2 hno hk
    rw [file_open_sector_succ]
    by_cases hj : j = k
    · rw [hj, if_pos hk]
    · rw [if_neg (hno j (le_refl j) (by omega))]
      exact ih (j + 1) k (by omega) (by omega) (fun i hi1 hi2 => hno i (by omega) hi2) hk

/-- The slot loop finds nothing exactly when no slot matches; what it finds is the
result for a matching slot with no matching slot before it. -/
theorem file_open_sector_cases (pvolume : volume_t) (name ext buffer : List Nat) :
    ∀ (r j : Nat),
      (file_open_sector pvolume name ext buffer r j = none ∧
        ∀ i, j ≤ i → i < j + r →
          ¬ (entry_name (slot_at buffer i) = name ∧ entry_extension (slot_at buffer i) = ext)) ∨
      ∃ k, j ≤ k ∧ k < j + r ∧
        (∀ i, j ≤ i → i < k →
          ¬ (entry_name (slot_at buffer i) = name ∧
              entry_extension (slot_at buffer i) = ext)) ∧
        (entry_name (slot_at buffer k) = name ∧ entry_extension (slot_at buffer k) = ext) ∧
        file_open_sector pvolume name ext buffer r j
          = some (file_open_match pvolume name ext (slot_at buffer k)) := by
  intro r
  induction r with
  | zero =>
    intro j
    exact Or.inl ⟨rfl, fun i h1 h2 => by omega⟩
  | succ r ih =>
    intro j
    rw [file_open_sector_succ]
    by_cases hj : entry_name (slot_at buffer j) = name ∧ entry_extension (slot_at buffer j) = ext
    · rw [if_pos hj]
      exact Or.inr ⟨j, le_refl j, by omega, fun i h1 h2 => by omega, hj, rfl⟩
    · rw [if_neg hj]
      rcases ih (j + 1) with ⟨hn, hall⟩ | ⟨k, h1, h2, hno, hk, he⟩
      · refine Or.inl ⟨hn, ?_⟩
        intro i hi1 hi2
        by_cases hij : i = j
        · rw [hij]; exact hj
        · exact hall i (by omega) (by omega)
      · refine Or.inr ⟨k, by omega, by omega, ?_, hk, he⟩
        intro i hi1 hi2
        by_cases hij : i = j
        · rw [hij]; exact hj
        · exact hno i (by omega) hi2

theorem file_open_scan_succ (pvolume : volume_t) (name ext buffer : List Nat) (r : Nat) :
    file_open_scan pvolume name ext (r + 1) buffer =
      match file_open_sector pvolume name ext
          (disk_read pvolume.disk pvolume.first_root_dir_sector buffer 1).buffer 16 0 with
      | some res => res
      | none => file_open_scan pvolume name ext r
          (disk_read pvolume.disk pvolume.first_root_dir_sector buffer 1).buffer := rfl

/-- Every iteration of the sector loop looks at the same buffer contents, so the
loop is decided by its first iteration. -/
theorem file_open_scan_eq (pvolume : volume_t) (name ext : List Nat)
    (hfrs : pvolume.first_root_dir_sector < 65536) :
    ∀ (r : Nat) (buffer : List Nat),
      file_open_scan pvolume name ext (r + 1) buffer =
        match file_open_sector pvolume name ext
            (disk_read pvolume.disk pvolume.first_root_dir_sector buffer 1).buffer 16 0 with
        | some res => res
        | none => Result.fail (some Errno.ENOENT) := by
  intro r
  induction r with
  | zero =>
    intro buffer
    rw [file_open_scan_succ]
    generalize file_open_sector pvolume name ext
      (disk_read pvolume.disk pvolume.first_root_dir_sector buffer 1).buffer 16 0 = o
    cases o <;> rfl
  | succ r ih =>
    intro buffer
    rw [file_open_scan_succ, ih,
      disk_read_idem pvolume.disk buffer pvolume.first_root_dir_sector (by omega)]
    generalize file_open_sector pvolume name ext
      (disk_read pvolume.disk pvolume.first_root_dir_sector buffer 1).buffer 16 0 = o
    cases o <;> rfl

/-- The whole of `file_open` in terms of the slot loop over the first root sector. -/
theorem file_open_eq (pvolume : volume_t) (file_name : List Nat)
    (hfrs : pvolume.first_root_dir_sector < 65536) :
    file_open pvolume file_name =
      if pvolume.root_dir_sectors = 0 then Result.fail (some Errno.ENOENT)
      else
        match file_open_sector pvolume (file_open_query file_name).1
            (file_open_query file_name).2 (root_buffer pvolume) 16 0 with
        | some res => res
        | none => Result.fail (some Errno.ENOENT) := by
  unfold file_open
  dsimp only
  by_cases h0 : pvolume.root_dir_sectors = 0
  · rw [if_pos h0, h0]
    rfl
  · rw [if_neg h0]
    obtain ⟨r, hr⟩ : ∃ r, pvolume.root_dir_sectors = r + 1 :=
      ⟨pvolume.root_dir_sectors - 1, by omega⟩
    rw [hr, file_open_scan_eq pvolume _ _ hfrs r (zeros 512)]
    rfl

/-- The results of `file_open` for a slot that matched. -/
theorem file_open_match_cases (pvolume : volume_t) (name ext e : List Nat) :
    (entry_attributes e &&& 16 ≠ 0 ∧
      file_open_match pvolume name ext e = Result.fail (some Errno.EISDIR)) ∨
    (entry_attributes e &&& 16 = 0 ∧
      ((cluster_walk pvolume.fat walk_fuel (entry_starting_cluster e) = none ∧
        file_open_match pvolume name ext e = Result.undefined) ∨
      ∃ chain, cluster_walk pvolume.fat walk_fuel (entry_starting_cluster e) = some chain ∧
        ((load_clusters pvolume.disk pvolume.first_data_sector (entry_file_size e) chain 0
            (zeros 512) (zeros (to_uint32 (entry_file_size e + 1 + 512))) = none ∧
          file_open_match pvolume name ext e = Result.undefined) ∨
        ∃ data, load_clusters pvolume.disk pvolume.first_data_sector (entry_file_size e)
            chain 0 (zeros 512) (zeros (to_uint32 (entry_file_size e + 1 + 512))) = some data ∧
          file_open_match pvolume name ext e = Result.ok
            { name := name, extension := ext, size := entry_file_size e,
              starting_cluster := entry_starting_cluster e, cluster_chain := chain,
              number_of_clusters := chain.length, data := data,
              current_position := 0 }))) := by
  unfold file_open_match
  by_cases hd : entry_attributes e &&& 16 ≠ 0
  · rw [if_pos hd]
    exact Or.inl ⟨hd, rfl⟩
  · rw [if_neg hd]
    refine Or.inr ⟨not_not.mp hd, ?_⟩
    dsimp only
    generalize cluster_walk pvolume.fat walk_fuel (entry_starting_cluster e) = w
    cases w with
    | none => exact Or.inl ⟨rfl, rfl⟩
    | some chain =>
      refine Or.inr ⟨chain, rfl, ?_⟩
      dsimp only
      generalize load_clusters pvolume.disk pvolume.first_data_sector (entry_file_size e)
        chain 0 (zeros 512) (zeros (to_uint32 (entry_file_size e + 1 + 512))) = l
      cases l with
      | none => exact Or.inl ⟨rfl, rfl⟩
      | some data => exact Or.inr ⟨data, rfl, rfl⟩

/-! ## `file_open`: results -/

/-- The sector loop ends with `ENOENT` or with the result for a slot that matches. -/
theorem file_open_scan_cases (pvolume : volume_t) (name ext : List Nat) :
    ∀ (r : Nat) (buffer : List Nat),
      file_open_scan pvolume name ext r buffer = Result.fail (some Errno.ENOENT) ∨
      ∃ e, entry_name e = name ∧ entry_extension e = ext ∧
        file_open_scan pvolume name ext r buffer = file_open_match pvolume name ext e := by
  intro r
  induction r with
  | zero => intro buffer; exact Or.inl rfl
  | succ r ih =>
    intro buffer
    rw [file_open_scan_succ]
    rcases file_open_sector_cases pvolume name ext
      (disk_read pvolume.disk pvolume.first_root_dir_sector buffer 1).buffer 16 0 with
      ⟨hn, _⟩ | ⟨k, _, _, _, hk, he⟩
    · rw [hn]
      exact ih _
    · rw [he]
      exact Or.inr ⟨_, hk.1, hk.2, rfl⟩

/-- What a handle returned by `file_open` holds. -/
theorem file_open_handle (pvolume : volume_t) (file_name : List Nat) (f : file_t)
    (hopen : file_open pvolume file_name = Result.ok f) :
    ∃ e, entry_name e = (file_open_query file_name).1 ∧
      entry_extension e = (file_open_query file_name).2 ∧
      entry_attributes e &&& 16 = 0 ∧
      cluster_walk pvolume.fat walk_fuel (entry_starting_cluster e) = some f.cluster_chain ∧
      load_clusters pvolume.disk pvolume.first_data_sector (entry_file_size e)
        f.cluster_chain 0 (zeros 512) (zeros (to_uint32 (entry_file_size e + 1 + 512)))
        = some f.data ∧
      f.size = entry_file_size e ∧ f.starting_cluster = entry_starting_cluster e ∧
      f.current_position = 0 := by
  have hscan : file_open_scan pvolume (file_open_query file_name).1
      (file_open_query file_name).2 pvolume.root_dir_sectors (zeros 512) = Result.ok f := hopen
  rcases file_open_scan_cases pvolume (file_open_query file_name).1
      (file_open_query file_name).2 pvolume.root_dir_sectors (zeros 512) with h | ⟨e, h1, h2, h⟩
  · rw [h] at hscan
    exact Result.noConfusion hscan
  · rw [h] at hscan
    refine ⟨e, h1, h2, ?_⟩
    rcases file_open_match_cases pvolume (file_open_query file_name).1
        (file_open_query file_name).2 e with ⟨_, hm⟩ | ⟨hattr, hrest⟩
    · rw [hm] at hscan
      exact Result.noConfusion hscan
    · refine ⟨hattr, ?_⟩
      rcases hrest with ⟨_, hm⟩ | ⟨chain, hw, hrest2⟩
      · rw [hm] at hscan
        exact Result.noConfusion hscan
      · rcases hrest2 with ⟨_, hm⟩ | ⟨data, hl, hm⟩
        · rw [hm] at hscan
          exact Result.noConfusion hscan
        · rw [hm] at hscan
          have hf := Result.ok.inj hscan
          rw [← hf]
          exact ⟨hw, hl, rfl, rfl, rfl⟩

/-- The only errors of `file_open` are `ENOENT` and `EISDIR`. -/
theorem file_open_errors (pvolume : volume_t) (file_name : List Nat) (err : Option Errno)
    (hfail : file_open pvolume file_name = Result.fail err) :
    err = some Errno.ENOENT ∨ err = some Errno.EISDIR := by
  have hscan : file_open_scan pvolume (file_open_query file_name).1
      (file_open_query file_name).2 pvolume.root_dir_sectors (zeros 512)
        = Result.fail err := hfail
  rcases file_open_scan_cases pvolume (file_open_query file_name).1
      (file_open_query file_name).2 pvolume.root_dir_sectors (zeros 512) with h | ⟨e, _, _, h⟩
  · rw [h] at hscan
    exact Or.inl (Result.fail.inj hscan).symm
  · rw [h] at hscan
    rcases file_open_match_cases pvolume (file_open_query file_name).1
        (file_open_query file_name).2 e with ⟨_, hm⟩ | ⟨_, hrest⟩
    · rw [hm] at hscan
      exact Or.inr (Result.fail.inj hscan).symm
    · rcases hrest with ⟨_, hm⟩ | ⟨chain, _, hrest2⟩
      · rw [hm] at hscan
        exact Result.noConfusion hscan
      · rcases hrest2 with ⟨_, hm⟩ | ⟨data, _, hm⟩
        · rw [hm] at hscan
          exact Result.noConfusion hscan
        · rw [hm] at hscan
          exact Result.noConfusion hscan

/-- The file `A` of `vol_c` opens, although its slot lies after the terminator. -/
theorem file_open_vol_c_a : file_open vol_c [65] = Result.ok handle_c_a := by
  decide!

theorem file_read_loop_cursor (stream_size : Nat) (data : List Nat) :
    ∀ (r i : Nat) (out : List Nat) (rb : Int) (pos : Nat), pos ≤ stream_size →
      (file_read_loop stream_size data r i out rb pos).2.2 ≤ stream_size := by
  intro r
  induction r with
  | zero => intro i out rb pos h; exact h
  | succ r ih =>
    intro i out rb pos h
    have hstep : file_read_loop stream_size data (r + 1) i out rb pos =
        if pos < stream_size then
          file_read_loop stream_size data r (i + 1) (out.set i (data.getD pos 0))
            (to_int32 (rb + 1)) ((pos + 1) % 4294967296)
        else (out, rb, pos) := rfl
    rw [hstep]
    by_cases hlt : pos < stream_size
    · rw [if_pos hlt]
      exact ih _ _ _ _ (le_trans (Nat.mod_le _ _) hlt)
    · rw [if_neg hlt]
      exact h

/-- C4: the handle returned by `file_open` has its cursor at 0, and every call of
`file_read` and of `file_seek` on a handle with `cursor <= size`, whatever the
arguments and whether it succeeds or fails, leaves a handle with `cursor <= size`
(the cursor is unsigned, so `0 <= cursor` always holds) and the same size. -/
theorem cursor_within_size (pvolume : volume_t) (file_name : List Nat) (opened : file_t)
    (hopen : file_open pvolume file_name = Result.ok opened)
    (stream : file_t) (hinv : stream.current_position ≤ stream.size)
    (ptr : List Nat) (size nmemb : Nat) (offset whence : Int) :
    (opened.current_position = 0 ∧ opened.current_position ≤ opened.size) ∧
    ((file_read ptr size nmemb stream).stream.current_position
        ≤ (file_read ptr size nmemb stream).stream.size ∧
      (file_read ptr size nmemb stream).stream.size = stream.size) ∧
    ((file_seek stream offset whence).stream.current_position
        ≤ (file_seek stream offset whence).stream.size ∧
      (file_seek stream offset whence).stream.size = stream.size) := by
  refine ⟨?_, ?_, ?_⟩
  · obtain ⟨e, _, _, _, _, _, _, _, h0⟩ := file_open_handle pvolume file_name opened hopen
    rw [h0]
    exact ⟨rfl, Nat.zero_le _⟩
  · unfold file_read
    exact ⟨file_read_loop_cursor stream.size stream.data _ 0 ptr 0 stream.current_position hinv,
      rfl⟩
  · unfold file_seek
    dsimp only
    split_ifs <;> first | exact ⟨hinv, rfl⟩ | exact ⟨by dsimp only; omega, rfl⟩

/-- C4, an instance: the handle of the file `A` of `vol_c`, and a read and a seek
on `small_handle`. -/
theorem cursor_within_size_witness :
    (handle_c_a.current_position = 0 ∧ handle_c_a.current_position ≤ handle_c_a.size) ∧
    ((file_read (zeros 16) 1 16 small_handle).stream.current_position
        ≤ (file_read (zeros 16) 1 16 small_handle).stream.size ∧
      (file_read (zeros 16) 1 16 small_handle).stream.size = small_handle.size) ∧
    ((file_seek small_handle 9 0).stream.current_position
        ≤ (file_seek small_handle 9 0).stream.size ∧
      (file_seek small_handle 9 0).stream.size = small_handle.size) :=
  cursor_within_size vol_c [65] handle_c_a file_open_vol_c_a small_handle (by decide)
    (zeros 16) 1 16 9 0

/-! ## `file_open`: the cluster chain and the payload -/

/-- C19, amended: every cluster number stored in the chain of a handle returned by
`file_open` is below `0xFFF8` and indexes an entry inside the in-memory FAT; the
chain holds no cluster twice.  (No lower bound holds.) -/
theorem chain_below_end_marker (pvolume : volume_t) (file_name : List Nat) (f : file_t)
    (hopen : file_open pvolume file_name = Result.ok f) :
    (∀ c ∈ f.cluster_chain, c < 65528 ∧ 2 * c + 1 < pvolume.fat.length) ∧
    f.cluster_chain.Nodup := by
  obtain ⟨e, _, _, _, hw, _⟩ := file_open_handle pvolume file_name f hopen
  exact ⟨cluster_walk_bounds pvolume.fat walk_fuel _ _ hw,
    cluster_walk_nodup pvolume.fat walk_fuel _ _ hw⟩

/-- C19, an instance: the chain `[3]` of the file `A` of `vol_c`. -/
theorem chain_below_end_marker_witness :
    (∀ c ∈ handle_c_a.cluster_chain, c < 65528 ∧ 2 * c + 1 < vol_c.fat.length) ∧
    handle_c_a.cluster_chain.Nodup :=
  chain_below_end_marker vol_c [65] handle_c_a file_open_vol_c_a

/-- C19 as stated fails: the slot `E` of `vol_c` has starting cluster 0, and the
handle that `file_open` returns for it has the chain `[0]`. -/
theorem chain_starts_at_cluster_zero :
    entry_starting_cluster (slot_at (sectors_at img_c 3 1) 1) = 0 ∧
    handle_chain (file_open vol_c [69]) = some [0] := by
  decide!

theorem cluster_walk_self_link (fat : List Nat) (k : Nat) (hk : k < 65528)
    (h : fat_entry fat k = some k) : ∀ fuel, cluster_walk fat fuel k = none := by
  intro fuel
  induction fuel with
  | zero => rfl
  | succ fuel ih =>
    rw [cluster_walk_succ, if_pos hk, h]
    show (cluster_walk fat fuel k).map (fun cs => k :: cs) = none
    rw [ih]
    rfl

/-- A matching slot of the first root sector decides `file_open`. -/
theorem file_open_of_slot (pvolume : volume_t) (file_name : List Nat) (k : Nat)
    (hfrs : pvolume.first_root_dir_sector < 65536) (hr : pvolume.root_dir_sectors ≠ 0)
    (hk : k < 16)
    (hfirst : ∀ i, i < k →
      ¬ (entry_name (slot_at (root_buffer pvolume) i) = (file_open_query file_name).1 ∧
        entry_extension (slot_at (root_buffer pvolume) i) = (file_open_query file_name).2))
    (hmatch : entry_name (slot_at (root_buffer pvolume) k) = (file_open_query file_name).1 ∧
      entry_extension (slot_at (root_buffer pvolume) k) = (file_open_query file_name).2) :
    file_open pvolume file_name =
      file_open_match pvolume (file_open_query file_name).1 (file_open_query file_name).2
        (slot_at (root_buffer pvolume) k) := by
  rw [file_open_eq pvolume file_name hfrs, if_neg hr,
    file_open_sector_find pvolume _ _ (root_buffer pvolume) 16 0 k (Nat.zero_le k) (by omega)
      (fun i _ hi => hfirst i hi) hmatch]

/-- C20, amended: `file_open` has no guard on the chain walk.  It never fails with
`EINVAL`; a handle is returned only when the links from the starting cluster reach
an end marker without visiting a cluster twice and without leaving the in-memory
FAT; and a walk that does not return within the 65529 steps of the model returns
for no number of steps, so that `Result.undefined` stands for a walk that runs
forever or reads outside the FAT. -/
theorem file_open_walk_unguarded (pvolume : volume_t) (file_name : List Nat) :
    file_open pvolume file_name ≠ Result.fail (some Errno.EINVAL) ∧
    (∀ f, file_open pvolume file_name = Result.ok f →
      f.cluster_chain.Nodup ∧
      (∀ c ∈ f.cluster_chain, c < 65528 ∧ 2 * c + 1 < pvolume.fat.length) ∧
      ∀ i, i + 1 < f.cluster_chain.length →
        fat_entry pvolume.fat (f.cluster_chain.getD i 0)
          = some (f.cluster_chain.getD (i + 1) 0)) ∧
    (∀ k, cluster_walk pvolume.fat walk_fuel k = none →
      ∀ fuel, cluster_walk pvolume.fat fuel k = none) := by
  refine ⟨?_, ?_, ?_⟩
  · intro h
    rcases file_open_errors pvolume file_name _ h with h1 | h1
    · exact Errno.noConfusion (Option.some.inj h1)
    · exact Errno.noConfusion (Option.some.inj h1)
  · intro f hopen
    obtain ⟨e, _, _, _, hw, _⟩ := file_open_handle pvolume file_name f hopen
    exact ⟨cluster_walk_nodup pvolume.fat walk_fuel _ _ hw,
      cluster_walk_bounds pvolume.fat walk_fuel _ _ hw,
      (cluster_walk_links pvolume.fat walk_fuel _ _ hw).2⟩
  · intro k hnone fuel
    cases hw : cluster_walk pvolume.fat fuel k with
    | none => rfl
    | some cs =>
      rw [cluster_walk_fuel pvolume.fat fuel k cs hw] at hnone
      exact Option.noConfusion hnone

/-- C20, an instance: the chain of the file `A` of `vol_c`. -/
theorem file_open_walk_unguarded_witness :
    handle_c_a.cluster_chain.Nodup ∧
    (∀ c ∈ handle_c_a.cluster_chain, c < 65528 ∧ 2 * c + 1 < vol_c.fat.length) ∧
    ∀ i, i + 1 < handle_c_a.cluster_chain.length →
      fat_entry vol_c.fat (handle_c_a.cluster_chain.getD i 0)
        = some (handle_c_a.cluster_chain.getD (i + 1) 0) :=
  (file_open_walk_unguarded vol_c [65]).2.1 handle_c_a file_open_vol_c_a

/-- C20 as stated fails: in `vol_c` the file `LOOP` starts at cluster 2, whose FAT
entry is 2 (a cycle), and the file `OUT` starts at cluster 300, outside the 256
entries of the FAT.  For neither does `file_open` fail with `EINVAL`: the walk of
`LOOP` returns for no number of steps, the walk of `OUT` reads outside the FAT,
and `file_open` has no result. -/
theorem file_open_cycle_and_stray_link :
    (fat_entry vol_c.fat 2 = some 2 ∧
      (∀ fuel, cluster_walk vol_c.fat fuel 2 = none) ∧
      file_open vol_c [76, 79, 79, 80] = Result.undefined) ∧
    (fat_entry vol_c.fat 300 = none ∧
      file_open vol_c [79, 85, 84] = Result.undefined) := by
  have hev : fat_entry vol_c.fat 2 = some 2 ∧ fat_entry vol_c.fat 300 = none ∧
      file_open vol_c [79, 85, 84] = Result.undefined ∧
      (∀ i, i < 2 →
        ¬ (entry_name (slot_at (root_buffer vol_c) i) = (file_open_query [76, 79, 79, 80]).1 ∧
          entry_extension (slot_at (root_buffer vol_c) i)
            = (file_open_query [76, 79, 79, 80]).2)) ∧
      (entry_name (slot_at (root_buffer vol_c) 2) = (file_open_query [76, 79, 79, 80]).1 ∧
        entry_extension (slot_at (root_buffer vol_c) 2)
          = (file_open_query [76, 79, 79, 80]).2) ∧
      entry_starting_cluster (slot_at (root_buffer vol_c) 2) = 2 ∧
      entry_attributes (slot_at (root_buffer vol_c) 2) &&& 16 = 0 := by decide!
  obtain ⟨hself, hout, hopen_out, hfirst, hmatch, hsc, hattr⟩ := hev
  have hloop := cluster_walk_self_link vol_c.fat 2 (by decide) hself
  refine ⟨⟨hself, hloop, ?_⟩, hout, hopen_out⟩
  rw [file_open_of_slot vol_c [76, 79, 79, 80] 2 (by decide) (by decide) (by decide)
    hfirst hmatch]
  rcases file_open_match_cases vol_c (file_open_query [76, 79, 79, 80]).1
      (file_open_query [76, 79, 79, 80]).2 (slot_at (root_buffer vol_c) 2) with
    ⟨hd, _⟩ | ⟨_, ⟨_, hm⟩ | ⟨chain, hw, _⟩⟩
  · exact absurd hattr hd
  · exact hm
  · rw [hsc, hloop walk_fuel] at hw
    exact Option.noConfusion hw

/-! ## `file_open`: the payload -/

theorem load_clusters_cons (disk : List Nat) (fds size c : Nat) (cs : List Nat) (k : Nat)
    (it data : List Nat) :
    load_clusters disk fds size (c :: cs) k it data =
      if to_uint32 (k * 512) < size then
        if k * 512 + 512 ≤ data.length then
          load_clusters disk fds size cs (k + 1)
            (disk_read disk ((fds : Int) + c - 2) it 1).buffer
            (memcpy_at data (k * 512)
              ((disk_read disk ((fds : Int) + c - 2) it 1).buffer.take 512))
        else none
      else some data := rfl

/-- A read of the sector of cluster `c` that lies inside the image leaves that
sector in the 512-byte buffer. -/
theorem cluster_read (disk it : List Nat) (fds c : Nat) (hlen : disk.length < 2147483648)
    (hfds : fds < 65536) (hc : c < 65528) (h2 : 2 ≤ fds + c)
    (hin : (fds + c - 1) * 512 ≤ disk.length) (hit : it.length = 512) :
    (disk_read disk ((fds : Int) + c - 2) it 1).buffer = sectors_at disk (fds + c - 2) 1 := by
  have hcast : ((fds : Int) + c - 2) = ((fds + c - 2 : Nat) : Int) := by omega
  rw [hcast]
  have h := disk_read_in_range disk it (fds + c - 2) 1 (by omega) (by omega) hlen (by omega)
  rw [Nat.cast_one] at h
  rw [h]
  exact memcpy_at_sector it _ hit (by rw [sectors_at_length _ _ _ (by omega)])

theorem cluster_sectors_length (disk : List Nat) (fds : Nat) :
    ∀ cs : List Nat, (∀ c ∈ cs, 2 ≤ fds + c ∧ (fds + c - 1) * 512 ≤ disk.length) →
      (cs.flatMap (fun c => sectors_at disk (fds + c - 2) 1)).length = 512 * cs.length := by
  intro cs
  induction cs with
  | nil => intro _; rfl
  | cons c cs ih =>
    intro h
    have hc := h c (List.mem_cons_self c cs)
    rw [List.flatMap_cons, List.length_append, List.length_cons,
      ih (fun d hd => h d (List.mem_cons_of_mem c hd)),
      sectors_at_length _ _ _ (by omega)]
    omega

/-- The payload loop: it copies the sectors of the first `m` clusters of the chain
to the payload from byte `512 * k` on, and stops either at the end of the chain or
when `size` bytes are covered. -/
theorem load_clusters_spec (disk : List Nat) (fds size : Nat)
    (hlen : disk.length < 2147483648) (hfds : fds < 65536) :
    ∀ (cs : List Nat) (k : Nat) (it data data1 : List Nat),
      it.length = 512 →
      (∀ c ∈ cs, c < 65528 ∧ 2 ≤ fds + c ∧ (fds + c - 1) * 512 ≤ disk.length) →
      k + cs.length ≤ 8388607 →
      k * 512 ≤ data.length →
      load_clusters disk fds size cs k it data = some data1 →
      ∃ m, m ≤ cs.length ∧ (m = cs.length ∨ size ≤ (k + m) * 512) ∧
        (k + m) * 512 ≤ data.length ∧
        data1 = memcpy_at data (k * 512)
          ((cs.take m).flatMap (fun c => sectors_at disk (fds + c - 2) 1)) := by
  intro cs
  induction cs with
  | nil =>
    intro k it data data1 _ _ _ hk h
    refine ⟨0, le_refl _, Or.inl rfl, by omega, ?_⟩
    have h1 : some data = some data1 := h
    rw [← Option.some.inj h1]
    exact (memcpy_at_nil data (k * 512)).symm
  | cons c cs ih =>
    intro k it data data1 hit hin hbound hk h
    rw [load_clusters_cons] at h
    rw [List.length_cons] at hbound
    have hu : to_uint32 ((k : Int) * 512) = k * 512 := by
      have := to_uint32_of_nat (k * 512) (by omega)
      rw [Nat.cast_mul] at this
      exact this
    rw [hu] at h
    by_cases hlt : k * 512 < size
    · rw [if_pos hlt] at h
      by_cases hfit : k * 512 + 512 ≤ data.length
      · rw [if_pos hfit] at h
        have hc := hin c (List.mem_cons_self c cs)
        have hs : (sectors_at disk (fds + c - 2) 1).length = 512 := by
          rw [sectors_at_length _ _ _ (by omega)]
        rw [cluster_read disk it fds c hlen hfds hc.1 hc.2.1 hc.2.2 hit,
          List.take_of_length_le (Nat.le_of_eq hs)] at h
        have hl1 : (memcpy_at data (k * 512) (sectors_at disk (fds + c - 2) 1)).length
            = data.length := memcpy_at_length _ _ _ (by rw [hs]; exact hfit)
        obtain ⟨m, hm, hor, hle, heq⟩ := ih (k + 1) _ _ data1 hs
          (fun d hd => hin d (List.mem_cons_of_mem c hd)) (by omega)
          (by rw [hl1]; omega) h
        rw [hl1] at hle
        refine ⟨m + 1, by rw [List.length_cons]; omega, ?_, by omega, ?_⟩
        · rcases hor with h1 | h1
          · exact Or.inl (by rw [List.length_cons, h1])
          · exact Or.inr (by omega)
        · have hX : ((cs.take m).flatMap (fun c => sectors_at disk (fds + c - 2) 1)).length
              = 512 * (cs.take m).length :=
            cluster_sectors_length disk fds (cs.take m)
              (fun d hd => (hin d (List.mem_cons_of_mem c (List.mem_of_mem_take hd))).2)
          rw [List.length_take, Nat.min_eq_left hm] at hX
          rw [heq, List.take_succ_cons, List.flatMap_cons]
          have e : (k + 1) * 512 = k * 512 + (sectors_at disk (fds + c - 2) 1).length := by
            rw [hs]; omega
          rw [e]
          exact memcpy_at_append data (k * 512) _ _ (by rw [hs, hX]; omega)
      · rw [if_neg hfit] at h
        exact Option.noConfusion h
    · rw [if_neg hlt] at h
      refine ⟨0, Nat.zero_le _, Or.inr (by omega), by omega, ?_⟩
      rw [← Option.some.inj h]
      exact (memcpy_at_nil data (k * 512)).symm

/-- The first `size` bytes of a payload that `load_clusters` built from offset 0. -/
theorem load_clusters_take (disk : List Nat) (fds size : Nat) (cs data data1 : List Nat)
    (hlen : disk.length < 2147483648) (hfds : fds < 65536)
    (hin : ∀ c ∈ cs, c < 65528 ∧ 2 ≤ fds + c ∧ (fds + c - 1) * 512 ≤ disk.length)
    (hbound : cs.length ≤ 65528) (hcover : size ≤ 512 * cs.length)
    (h : load_clusters disk fds size cs 0 (zeros 512) data = some data1) :
    data1.length = data.length ∧
    data1.take size = (cs.flatMap (fun c => sectors_at disk (fds + c - 2) 1)).take size := by
  obtain ⟨m, hm, hor, hle, heq⟩ := load_clusters_spec disk fds size hlen hfds cs 0
    (zeros 512) data data1 (zeros_length 512) hin (by omega) (by omega) h
  have hX : ((cs.take m).flatMap (fun c => sectors_at disk (fds + c - 2) 1)).length
      = 512 * (cs.take m).length :=
    cluster_sectors_length disk fds (cs.take m)
      (fun d hd => (hin d (List.mem_of_mem_take hd)).2)
  rw [List.length_take, Nat.min_eq_left hm] at hX
  have hsz : size ≤ 512 * m := by
    rcases hor with h1 | h1
    · rw [h1]; exact hcover
    · omega
  constructor
  · rw [heq]
    exact memcpy_at_length _ _ _ (by rw [hX]; omega)
  · have hsplit : cs.flatMap (fun c => sectors_at disk (fds + c - 2) 1)
        = (cs.take m).flatMap (fun c => sectors_at disk (fds + c - 2) 1)
          ++ (cs.drop m).flatMap (fun c => sectors_at disk (fds + c - 2) 1) := by
      rw [← List.flatMap_append, List.take_append_drop]
    rw [hsplit, heq]
    unfold memcpy_at
    rw [List.take_zero, List.nil_append, List.take_append_of_le_length (by rw [hX]; omega),
      List.take_append_of_le_length (by rw [hX]; omega)]

/-! ## `file_open` followed by `file_read` -/

theorem flatMap_congr_mem (f g : Nat → List Nat) :
    ∀ cs : List Nat, (∀ c ∈ cs, f c = g c) → cs.flatMap f = cs.flatMap g := by
  intro cs
  induction cs with
  | nil => intro _; rfl
  | cons c cs ih =>
    intro h
    rw [List.flatMap_cons, List.flatMap_cons, h c (List.mem_cons_self c cs),
      ih (fun d hd => h d (List.mem_cons_of_mem c hd))]

/-- C1, amended: for a handle `f` that `file_open` returned for a file whose
clusters lie inside an image of less than 2 GiB and whose chain covers its size
(below `2^31`), a `file_read` from the start that asks for at least `size` bytes
yields exactly the first `size` bytes of the concatenation, over the clusters `c`
of the chain in chain order, of the ONE sector `first_data_sector + c - 2`; it
returns `size / element size` and leaves the cursor at `size`.  With one sector per
cluster and all clusters at least 2 these are the bytes the specification names. -/
theorem file_open_read_roundtrip (pvolume : volume_t) (file_name : List Nat) (f : file_t)
    (ptr : List Nat) (size nmemb : Nat)
    (hopen : file_open pvolume file_name = Result.ok f)
    (hdisk : pvolume.disk.length < 2147483648)
    (hfds : pvolume.first_data_sector < 65536)
    (hin : ∀ c ∈ f.cluster_chain, 2 ≤ pvolume.first_data_sector + c ∧
      (pvolume.first_data_sector + c - 1) * 512 ≤ pvolume.disk.length)
    (hcover : f.size ≤ 512 * f.cluster_chain.length)
    (hsize : f.size < 2147483648)
    (_hs : 1 ≤ size) (hreq : f.size ≤ size * nmemb)
    (hprod : size * nmemb < 18446744073709551616)
    (hptr : f.size ≤ ptr.length) :
    (file_read ptr size nmemb f).ptr.take f.size
      = file_bytes_loaded pvolume f.cluster_chain f.size ∧
    (file_read ptr size nmemb f).ret = f.size / size ∧
    (file_read ptr size nmemb f).stream.current_position = f.size ∧
    (pvolume.super.sectors_per_cluster = 1 → (∀ c ∈ f.cluster_chain, 2 ≤ c) →
      file_bytes_loaded pvolume f.cluster_chain f.size
        = file_bytes_claimed pvolume f.cluster_chain f.size) := by
  obtain ⟨e, _, _, _, hw, hl, hsz, _, h0⟩ := file_open_handle pvolume file_name f hopen
  have hb := cluster_walk_bounds pvolume.fat walk_fuel _ _ hw
  have hlen : f.cluster_chain.length ≤ 65528 :=
    nodup_length_le 65528 _ (cluster_walk_nodup pvolume.fat walk_fuel _ _ hw)
      (fun c hc => (hb c hc).1)
  rw [← hsz] at hl
  obtain ⟨hdl, htake⟩ := load_clusters_take pvolume.disk pvolume.first_data_sector f.size
    f.cluster_chain _ f.data hdisk hfds
    (fun c hc => ⟨(hb c hc).1, (hin c hc).1, (hin c hc).2⟩) hlen hcover hl
  have hu : to_uint32 ((f.size : Int) + 1 + 512) = f.size + 1 + 512 := by
    have := to_uint32_of_nat (f.size + 1 + 512) (by omega)
    rw [Nat.cast_add, Nat.cast_add] at this
    exact this
  rw [hu, zeros_length] at hdl
  have hmin : min (size * nmemb) (f.size - f.current_position) = f.size := by
    rw [h0, Nat.sub_zero]
    exact Nat.min_eq_right hreq
  have hloop := file_read_loop_eq f.size f.data (size * nmemb) 0 ptr 0 f.current_position
    (by rw [h0]; exact Nat.zero_le _) (by omega) (by rw [hmin, h0]; omega)
    (by rw [hmin]; omega)
  rw [hmin, h0] at hloop
  have hread : file_read ptr size nmemb f =
      { ret := to_size_t (file_read_loop f.size f.data (size * nmemb) 0 ptr 0 0).2.1 / size,
        ptr := (file_read_loop f.size f.data (size * nmemb) 0 ptr 0 0).1,
        stream := { f with
          current_position :=
            (file_read_loop f.size f.data (size * nmemb) 0 ptr 0 0).2.2 } } := by
    unfold file_read
    rw [Nat.mod_eq_of_lt hprod, h0]
  rw [hread, hloop]
  refine ⟨?_, ?_, ?_, ?_⟩
  · show (memcpy_at ptr 0 ((f.data.drop 0).take f.size)).take f.size = _
    unfold memcpy_at file_bytes_loaded
    rw [List.take_zero, List.nil_append, List.drop_zero,
      List.take_append_of_le_length (by rw [List.length_take]; omega),
      List.take_take, Nat.min_self, htake]
  · show to_size_t (if f.size = 0 then (0 : Int) else to_int32 (0 + (f.size : Nat))) / size
      = f.size / size
    by_cases hz : f.size = 0
    · rw [if_pos hz, hz]
      rfl
    · rw [if_neg hz, Int.zero_add, to_size_t_to_int32 f.size hsize]
  · show 0 + f.size = f.size
    omega
  · intro hspc hge
    unfold file_bytes_loaded file_bytes_claimed
    rw [flatMap_congr_mem _ (cluster_bytes_claimed pvolume) f.cluster_chain]
    intro c hc
    unfold cluster_bytes_claimed
    have h2 := hge c hc
    rw [hspc, Nat.mul_one, Nat.add_sub_assoc h2]

/-- C1, an instance: the file `A` of `vol_c` (one sector per cluster), read with
four elements of one byte. -/
theorem file_open_read_roundtrip_witness :
    (file_read (zeros 4) 1 4 handle_c_a).ptr.take handle_c_a.size
      = file_bytes_loaded vol_c handle_c_a.cluster_chain handle_c_a.size ∧
    (file_read (zeros 4) 1 4 handle_c_a).ret = handle_c_a.size / 1 ∧
    (file_read (zeros 4) 1 4 handle_c_a).stream.current_position = handle_c_a.size ∧
    (vol_c.super.sectors_per_cluster = 1 → (∀ c ∈ handle_c_a.cluster_chain, 2 ≤ c) →
      file_bytes_loaded vol_c handle_c_a.cluster_chain handle_c_a.size
        = file_bytes_claimed vol_c handle_c_a.cluster_chain handle_c_a.size) :=
  have h : vol_c.disk.length < 2147483648 ∧
      ∀ c ∈ handle_c_a.cluster_chain, 2 ≤ vol_c.first_data_sector + c ∧
        (vol_c.first_data_sector + c - 1) * 512 ≤ vol_c.disk.length := by decide!
  file_open_read_roundtrip vol_c [65] handle_c_a (zeros 4) 1 4 file_open_vol_c_a
    h.1 (by decide) h.2 (by decide) (by decide) (by decide) (by decide)
    (by decide) (by decide)

/-- C1 as stated fails: `vol_a` has two sectors per cluster and its file `A`
(4 bytes) has the chain `[3]`.  The claim gives the bytes of sector
`4 + (3 - 2) * 2 = 6`, which holds 3s; `file_open` loads sector `4 + 3 - 2 = 5`,
which holds 2s, and reading to the end of the file yields `2 2 2 2`. -/
theorem file_open_reads_one_sector_per_cluster :
    fat_open img_a 0 0 0 = Result.ok vol_a ∧
    vol_a.super.sectors_per_cluster = 2 ∧
    (handle_chain (file_open vol_a [65]) = some [3] ∧
      read_to_eof (file_open vol_a [65]) = some [2, 2, 2, 2] ∧
      file_bytes_claimed vol_a [3] 4 = [3, 3, 3, 3]) :=
  ⟨fat_open_img_a, rfl, by decide!⟩

/-- C14 fails on the code: the root directory of `vol_b` has two sectors; none of
the sixteen slots of the first one matches `DATA.BIN` or is a terminator, and slot
16, the first of the second sector, matches and has the DIRECTORY attribute.  The
claim asks for `EISDIR`; `file_open` reads the first root sector twice and fails
with `ENOENT`. -/
theorem file_open_misses_second_root_sector :
    fat_open img_b 0 0 0 = Result.ok vol_b ∧
    ((∀ i, i < 16 →
      ((root_slots_claimed vol_b).getD i []).getD 0 0 ≠ 0 ∧
      ¬ (entry_name ((root_slots_claimed vol_b).getD i [])
            = (file_open_query [68, 65, 84, 65, 46, 66, 73, 78]).1 ∧
          entry_extension ((root_slots_claimed vol_b).getD i [])
            = (file_open_query [68, 65, 84, 65, 46, 66, 73, 78]).2)) ∧
      (entry_name ((root_slots_claimed vol_b).getD 16 [])
          = (file_open_query [68, 65, 84, 65, 46, 66, 73, 78]).1 ∧
        entry_extension ((root_slots_claimed vol_b).getD 16 [])
          = (file_open_query [68, 65, 84, 65, 46, 66, 73, 78]).2 ∧
        entry_attributes ((root_slots_claimed vol_b).getD 16 []) &&& 16 ≠ 0) ∧
      file_open vol_b [68, 65, 84, 65, 46, 66, 73, 78]
        = Result.fail (some Errno.ENOENT)) :=
  ⟨fat_open_img_b, by decide!⟩

/-- C15 fails on the code: in the root of `vol_c` slot 4 starts with 0x00 and none
of the slots 0 to 3 before it matches the name `A`, so the claim asks for
`ENOENT`; `file_open` does not look at the first byte of a slot and opens the
file `A` of slot 5. -/
theorem file_open_opens_slot_after_terminator :
    fat_open img_c 0 0 0 = Result.ok vol_c ∧
    ((slot_at (sectors_at img_c 3 1) 4).getD 0 0 = 0 ∧
      (∀ i, i < 4 →
        ¬ (entry_name (slot_at (sectors_at img_c 3 1) i) = (file_open_query [65]).1 ∧
          entry_extension (slot_at (sectors_at img_c 3 1) i) = (file_open_query [65]).2)) ∧
      entry_name (slot_at (sectors_at img_c 3 1) 5) = (file_open_query [65]).1 ∧
      entry_extension (slot_at (sectors_at img_c 3 1) 5) = (file_open_query [65]).2) ∧
    file_open vol_c [65] = Result.ok handle_c_a :=
  ⟨fat_open_img_c, by decide!, file_open_vol_c_a⟩

/-! ## `file_open`: the query -/

theorem fill_strncpy (w : Nat) (t : List Nat) :
    fill_name_with_spaces (strncpy (zeros w) t w) w = pad_field w t := by
  have hX : ((t ++ zeros w).take w).length = w := by
    rw [List.length_take, List.length_append, zeros_length]
    omega
  have h1 : strncpy (zeros w) t w = (t ++ zeros w).take w := by
    unfold strncpy memcpy_at
    rw [List.take_zero, List.nil_append, hX, Nat.zero_add,
      List.drop_eq_nil_of_le (by rw [zeros_length]), List.append_nil]
  rw [h1]
  unfold fill_name_with_spaces pad_field
  rw [List.take_of_length_le (Nat.le_of_eq hX), List.drop_eq_nil_of_le (Nat.le_of_eq hX),
    List.append_nil, List.map_take, List.map_take, List.map_append, List.map_append]
  unfold zeros
  rw [List.map_replicate, List.map_replicate]
  rfl

theorem takeWhile_eq_self_of_not_mem (t : List Nat) (h : 46 ∉ t) :
    t.takeWhile (fun c => c != 46) = t := by
  rw [List.takeWhile_eq_self_iff]
  intro c hc
  have : c ≠ 46 := fun h1 => h (h1 ▸ hc)
  simpa using this

theorem no_dot_after_first (t : List Nat) (h : t.count 46 ≤ 1) :
    46 ∉ (t.dropWhile (fun c => c != 46)).drop 1 := by
  induction t with
  | nil => simp
  | cons c t ih =>
    by_cases hc : c = 46
    · rw [hc] at h ⊢
      rw [List.count_cons_self] at h
      have h0 : t.count 46 = 0 := by omega
      have : (46 :: t).dropWhile (fun c => c != 46) = 46 :: t := by
        rw [List.dropWhile_cons_of_neg (by simp)]
      rw [this, List.drop_one, List.tail_cons]
      exact List.count_eq_zero.mp h0
    · rw [List.count_cons_of_ne (fun h1 => hc h1.symm)] at h
      rw [List.dropWhile_cons_of_pos (by simpa using hc)]
      exact ih h

theorem dropWhile_dot_of_head (t : List Nat) (h : t.head? ≠ some 46) :
    t.dropWhile (fun c => c == 46) = t := by
  cases t with
  | nil => rfl
  | cons c t =>
    have hc : c ≠ 46 := fun h1 => h (by rw [h1]; rfl)
    rw [List.dropWhile_cons_of_neg (by simpa using hc)]

/-- The second `strtok` on a rest without dots yields the rest itself. -/
theorem strtok_dot_rest (rest : List Nat) (h : 46 ∉ rest) :
    strtok_dot rest = if rest = [] then none else some (rest, []) := by
  have hh : rest.head? ≠ some 46 := by
    cases rest with
    | nil => simp
    | cons c t =>
      intro h1
      have : c = 46 := Option.some.inj h1
      exact h (this ▸ List.mem_cons_self c t)
  unfold strtok_dot
  dsimp only
  rw [dropWhile_dot_of_head rest hh]
  by_cases hr : rest = []
  · rw [if_pos hr, if_pos hr]
  · rw [if_neg hr, if_neg hr, takeWhile_eq_self_of_not_mem rest h]
    have : rest.dropWhile (fun c => c != 46) = [] := by
      rw [List.dropWhile_eq_nil_iff]
      intro c hc
      have : c ≠ 46 := fun h1 => h (h1 ▸ hc)
      simpa using this
    rw [this]
    rfl

/-- C18, amended: for every input that does not start with `.` and holds at most
one `.` (before its NUL), the query of `file_open` is the one the specification
names: NAME from the bytes before the `.`, EXT from the bytes after it, truncated,
padded, non-alphabetic bytes replaced by spaces. -/
theorem file_open_query_spec (file_name : List Nat)
    (hhead : (cstr file_name).head? ≠ some 46)
    (hdots : (cstr file_name).count 46 ≤ 1) :
    file_open_query file_name = query_claimed file_name := by
  have hrest := no_dot_after_first (cstr file_name) hdots
  unfold file_open_query query_claimed split_filename
  dsimp only
  have h1 : strtok_dot (cstr file_name) =
      if cstr file_name = [] then none
      else some ((cstr file_name).takeWhile (fun c => c != 46),
        ((cstr file_name).dropWhile (fun c => c != 46)).drop 1) := by
    unfold strtok_dot
    dsimp only
    rw [dropWhile_dot_of_head _ hhead]
  rw [h1]
  by_cases hnil : cstr file_name = []
  · rw [if_pos hnil, hnil]
    rfl
  · rw [if_neg hnil]
    dsimp only
    rw [strtok_dot_rest _ hrest]
    by_cases hr : ((cstr file_name).dropWhile (fun c => c != 46)).drop 1 = []
    · rw [if_pos hr]
      dsimp only
      rw [fill_strncpy, hr]
      rfl
    · rw [if_neg hr]
      dsimp only
      rw [fill_strncpy, fill_strncpy]

/-- C18, an instance: the name `README.TXT`. -/
theorem file_open_query_spec_witness :
    file_open_query [82, 69, 65, 68, 77, 69, 46, 84, 88, 84]
      = query_claimed [82, 69, 65, 68, 77, 69, 46, 84, 88, 84] :=
  file_open_query_spec [82, 69, 65, 68, 77, 69, 46, 84, 88, 84] (by decide) (by decide)

/-- C18 as stated fails: `strtok` skips leading dots and cuts at every dot.  For
`.TXT` the claim gives an all-space NAME and EXT `TXT`, the code NAME `TXT` and an
all-space EXT; for `A.B.C` the claim gives EXT `B C`, the code EXT `B`. -/
theorem file_open_query_tokens :
    (query_claimed [46, 84, 88, 84] = ([32, 32, 32, 32, 32, 32, 32, 32], [84, 88, 84]) ∧
      file_open_query [46, 84, 88, 84] = ([84, 88, 84, 32, 32, 32, 32, 32], [32, 32, 32])) ∧
    (query_claimed [65, 46, 66, 46, 67] = ([65, 32, 32, 32, 32, 32, 32, 32], [66, 32, 67]) ∧
      file_open_query [65, 46, 66, 46, 67]
        = ([65, 32, 32, 32, 32, 32, 32, 32], [66, 32, 32])) := by
  decide

end FAT16
